import Mathlib

/-!
Verification of the mapping-state reconciliation engine of the
permission-admin repository (React/TypeScript).  JavaScript objects keyed
by strings are modelled as insertion-ordered association lists
`List (String × α)`; JS `Set<string>` values are modelled as
insertion-ordered duplicate-free `List String`.  The definitions below are
transcribed from `src/components/RoleFeaturePermissionAdmin.tsx`,
`src/components/PackageFeatureAdmin.tsx` and the generic CRUD list
component; theorems about them follow after all definitions.
-/

namespace SSPerm

/-- Model of a JS object with values of type `α`: an association list in
property insertion order.  Real JS objects never hold two properties with
the same key; predicates below make that explicit where a proof needs it. -/
abbrev JsObj (α : Type) := List (String × α)

/-- Keys of a JS object, in insertion order. -/
def jsKeys {α : Type} (m : JsObj α) : List String := m.map Prod.fst

/-- Model of JS property read `m[k]`: the value at the first (unique)
occurrence of key `k`, or `undefined` (`none`). -/
def jsLookup {α : Type} (m : JsObj α) (k : String) : Option α :=
  (m.find? (fun p => p.1 == k)).map Prod.snd

/-- Model of the test whether property `k` is present on `m`. -/
def jsHasKey {α : Type} (m : JsObj α) (k : String) : Bool :=
  m.any (fun p => p.1 == k)

/-- Model of JS property assignment `m[k] = v`: overwrite in place when the
key exists (keeping its position), otherwise append the new property. -/
def jsSet {α : Type} (m : JsObj α) (k : String) (v : α) : JsObj α :=
  if jsHasKey m k then m.map (fun p => if p.1 == k then (k, v) else p)
  else m ++ [(k, v)]

/-- Model of JS defaulting assignment `m[k] ??= v`. -/
def jsSetDefault {α : Type} (m : JsObj α) (k : String) (v : α) : JsObj α :=
  if jsHasKey m k then m else m ++ [(k, v)]

/-- Model of JS `delete m[k]`. -/
def jsDelete {α : Type} (m : JsObj α) (k : String) : JsObj α :=
  m.filter (fun p => p.1 != k)

/-- Auxiliary structural form of `new Set(xs)`: `seen` holds the elements
already emitted; a later duplicate is skipped. -/
def jsNewSetAux (seen : List String) : List String → List String
  | [] => []
  | x :: xs =>
      if seen.contains x then jsNewSetAux seen xs
      else x :: jsNewSetAux (seen ++ [x]) xs

/-- Model of JS `new Set(xs)` for string elements: keep the first
occurrence of each element, in iteration order. -/
def jsNewSet (xs : List String) : List String := jsNewSetAux [] xs

/-- Model of JS `set.add(x)` (insertion at the end when absent). -/
def jsSetAdd (s : List String) (x : String) : List String :=
  if s.contains x then s else s ++ [x]

/-- Model of JS `set.delete(x)` followed by reading the set: the element is
removed (a real `Set` holds at most one occurrence, so erasing the first
occurrence is exact). -/
def jsSetDelete (s : List String) (x : String) : List String :=
  s.erase x

/-- JSON-like runtime values, as produced by `JSON.parse`: the argument
type of the persistence decoder.  Object fields are listed in property
order; a value produced by `JSON.parse` never repeats a key. -/
inductive JValue where
  | jnull : JValue
  | jbool : Bool → JValue
  | jnum : Int → JValue
  | jstr : String → JValue
  | jarr : List JValue → JValue
  | jobj : List (String × JValue) → JValue

mutual

/-- Model of the JS conversion `String(x)` on JSON values (numbers print
in decimal, strings pass through, arrays join their elements with commas,
plain objects print as `[object Object]`). -/
def jsString : JValue → String
  | .jnull => "null"
  | .jbool b => if b then "true" else "false"
  | .jnum n => toString n
  | .jstr s => s
  | .jarr xs => String.intercalate "," (jsStringList xs)
  | .jobj _ => "[object Object]"

/-- Pointwise `String(x)` over the elements of a JS array. -/
def jsStringList : List JValue → List String
  | [] => []
  | v :: vs => jsString v :: jsStringList vs

end

/-- Model of `Object.entries` on a JS array: index keys in order. -/
def enumEntries (xs : List JValue) : List (String × JValue) :=
  xs.enum.map (fun p => (toString p.1, p.2))

/-- Model of the guard `v && typeof v === "object"` followed by
`Object.entries(v)`: arrays pass the `typeof` test and enumerate with
index keys; `null`, booleans, numbers and strings yield `none`. -/
def jsEntries : JValue → Option (List (String × JValue))
  | .jobj fields => some fields
  | .jarr xs => some (enumEntries xs)
  | _ => none

/-- In-memory action set of the role admin: JS `Set<string>`. -/
abbrev ActionSet := List String

/-- menu-id to action set level of `RoleFeatureMenuActionMap`. -/
abbrev MenuMap := JsObj ActionSet

/-- feature-id to menu map level of `RoleFeatureMenuActionMap`. -/
abbrev FeatureMap := JsObj MenuMap

/-- The `RoleFeatureMenuActionMap` of `RoleFeaturePermissionAdmin.tsx`:
role-id to feature-id to menu-id to set of action-id strings. -/
abbrev RFMA := JsObj FeatureMap

/-- Encoder `toPersistRFMA` (RoleFeaturePermissionAdmin.tsx lines 39-51):
every innermost set becomes an array of strings, keys kept in order. -/
def toPersistRFMA (m : RFMA) : JValue :=
  .jobj (m.map (fun r =>
    (r.1, JValue.jobj (r.2.map (fun f =>
      (f.1, JValue.jobj (f.2.map (fun q =>
        (q.1, JValue.jarr (q.2.map JValue.jstr))))))))))

/-- Body of the inner loop of `fromPersistRFMA` over a menu-id keyed
object (lines 71-75): only array values are installed, anything else is
skipped. -/
def fromPersistMenusStep (out : MenuMap) (q : String × JValue) : MenuMap :=
  match q.2 with
  | .jarr xs => jsSet out q.1 (jsNewSet (xs.map jsString))
  | _ => out

/-- Inner loop of `fromPersistRFMA` over a menu-id keyed object. -/
def fromPersistMenus (mfields : List (String × JValue)) : MenuMap :=
  mfields.foldl fromPersistMenusStep []

/-- Body of the middle loop of `fromPersistRFMA` over a feature-id keyed
object (lines 61-77).  An array value is the legacy flat shape and is
installed under the synthetic menu key "-1"; an object value is the
current nested shape; any other value leaves the feature key absent. -/
def fromPersistFeaturesStep (out : FeatureMap) (q : String × JValue) :
    FeatureMap :=
  match q.2 with
  | .jarr xs => jsSet out q.1 [("-1", jsNewSet (xs.map jsString))]
  | .jobj mfields => jsSet out q.1 (fromPersistMenus mfields)
  | _ => out

/-- Middle loop of `fromPersistRFMA` over a feature-id keyed object. -/
def fromPersistFeatures (ffields : List (String × JValue)) : FeatureMap :=
  ffields.foldl fromPersistFeaturesStep []

/-- Body of the outer loop of `fromPersistRFMA` (lines 57-78): `out[rid]`
is installed first (as an empty object) and stays empty when the role
value is not object-like. -/
def fromPersistRolesStep (out : RFMA) (r : String × JValue) : RFMA :=
  match jsEntries r.2 with
  | none => jsSet out r.1 []
  | some ffields => jsSet out r.1 (fromPersistFeatures ffields)

/-- Decoder `fromPersistRFMA` (lines 53-80).  A top-level value that is
falsy or not `typeof "object"` decodes to the empty map. -/
def fromPersistRFMA (raw : JValue) : RFMA :=
  match jsEntries raw with
  | none => []
  | some byRole => byRole.foldl fromPersistRolesStep []

/-- What the decoder makes of a single value at the feature position of a
menu-id keyed object: `some` set for an array, `none` (skip) otherwise. -/
def decodeMenuValue : JValue → Option ActionSet
  | .jarr xs => some (jsNewSet (xs.map jsString))
  | _ => none

/-- What the decoder makes of a single value at the feature-id position:
legacy array shape, current object shape, or skip. -/
def decodeFeatureValue : JValue → Option MenuMap
  | .jarr xs => some [("-1", jsNewSet (xs.map jsString))]
  | .jobj mfields => some (fromPersistMenus mfields)
  | _ => none

/-- What the decoder makes of a single value at the role-id position: an
empty object when the value is not object-like. -/
def decodeRoleValue (v : JValue) : FeatureMap :=
  match jsEntries v with
  | none => []
  | some ffields => fromPersistFeatures ffields

/-- Well-formedness of a JS `Set<string>` model: no duplicate elements. -/
def WFSet (s : ActionSet) : Prop := s.Nodup

/-- Well-formedness of the menu level: unique keys, well-formed sets. -/
def WFMenuMap (byMenu : MenuMap) : Prop :=
  (jsKeys byMenu).Nodup ∧ ∀ q ∈ byMenu, WFSet q.2

/-- Well-formedness of the feature level. -/
def WFFeatureMap (byFeature : FeatureMap) : Prop :=
  (jsKeys byFeature).Nodup ∧ ∀ q ∈ byFeature, WFMenuMap q.2

/-- Well-formedness of a whole `RoleFeatureMenuActionMap`: the invariant
every value reachable in the running program satisfies (JS objects have
unique keys, JS sets hold no duplicates). -/
def WFRFMA (m : RFMA) : Prop :=
  (jsKeys m).Nodup ∧ ∀ q ∈ m, WFFeatureMap q.2

instance : DecidablePred WFSet := fun s => by
  unfold WFSet; infer_instance

instance : DecidablePred WFMenuMap := fun b => by
  unfold WFMenuMap WFSet; infer_instance

instance : DecidablePred WFFeatureMap := fun b => by
  unfold WFFeatureMap WFMenuMap WFSet; infer_instance

instance : DecidablePred WFRFMA := fun m => by
  unfold WFRFMA WFFeatureMap WFMenuMap WFSet; infer_instance

/-- Deep copy `cloneMapping` (RoleFeaturePermissionAdmin.tsx lines
156-170): rebuilds every level, cloning each leaf with
`new Set(Array.from(set))`. -/
def cloneMapping (m : RFMA) : RFMA :=
  m.foldl (fun out r =>
    jsSet out r.1 (r.2.foldl (fun o2 f =>
      jsSet o2 f.1 (f.2.foldl (fun o3 q =>
        jsSet o3 q.1 (jsNewSet q.2)) [])) [])) []

/-- The state update of `toggle` (lines 209-230): descend with `??=`
along role and feature, clone-or-create the terminal set, flip membership
of the permission id, and write the set back. -/
def toggle (m : RFMA) (roleId featureId : Int) (menuId : String)
    (permId : Int) : RFMA :=
  let next := cloneMapping m
  let rid := toString roleId
  let fid := toString featureId
  let mid := menuId
  let next1 := jsSetDefault next rid []
  let byFeature := (jsLookup next1 rid).getD []
  let byFeature1 := jsSetDefault byFeature fid []
  let byMenu := (jsLookup byFeature1 fid).getD []
  let sset :=
    match jsLookup byMenu mid with
    | some existing => jsNewSet existing
    | none => []
  let key := toString permId
  let sset1 := if sset.contains key then jsSetDelete sset key
               else jsSetAdd sset key
  jsSet next1 rid (jsSet byFeature1 fid (jsSet byMenu mid sset1))

/-- The state update of `handleRoleBeforeSave` (lines 172-207), the rekey
operation run when the id of the role being edited changes from
`editingId` to `draft.id`: merge the old entry into a pre-existing new
entry (union of action sets) or rename it, then delete the old key. -/
def handleRoleBeforeSave (m : RFMA) (editingId draftId : Int) : RFMA :=
  if editingId = -1 then m
  else if draftId = editingId then m
  else
    let oldKey := toString editingId
    let newKey := toString draftId
    if oldKey = newKey then m
    else
      let next := cloneMapping m
      match jsLookup next oldKey with
      | none => jsSetDefault next newKey []
      | some oldEntry =>
          match jsLookup next newKey with
          | some newEntry =>
              let merged := oldEntry.foldl (fun ne f =>
                let ne1 := jsSetDefault ne f.1 []
                let cur := (jsLookup ne1 f.1).getD []
                let cur2 := f.2.foldl (fun c q =>
                  let existing := (jsLookup c q.1).getD []
                  jsSet c q.1 (q.2.foldl (fun e v => jsSetAdd e v) existing)) cur
                jsSet ne1 f.1 cur2) newEntry
              jsDelete (jsSet next newKey merged) oldKey
          | none => jsDelete (jsSet next newKey oldEntry) oldKey

/-- Observation helper: the action set stored at (featureId, menuId) in a
feature map, read as JS would with missing levels treated as empty. -/
def lookupActions (byF : FeatureMap) (fid mid : String) : ActionSet :=
  (jsLookup ((jsLookup byF fid).getD []) mid).getD []

/-- The reconciliation effect over the Role collection
(RoleFeaturePermissionAdmin.tsx lines 119-130): add an empty sub-map for
every role id missing from the mapping, then delete every mapping key
that no current role id matches. -/
def ensureRoleKeys (m : RFMA) (roleIds : List Int) : RFMA :=
  let next := roleIds.foldl (fun n i => jsSetDefault n (toString i) []) m
  next.filter (fun p => roleIds.any (fun i => toString i == p.1))

/-- Role entity as read by the modelled operations (id and name; the audit
and flag fields of `domain.ts` are never read by them and are omitted). -/
structure RoleEntity where
  id : Int
  name : String
deriving DecidableEq, Repr

/-- Feature entity as read by the role-admin export (id and name). -/
structure FeatureRec where
  id : Int
  name : String
deriving DecidableEq, Repr

/-- Menu entity as read by the role-admin export (id and name). -/
structure MenuRec where
  id : Int
  name : String
deriving DecidableEq, Repr

/-- Permission-action entity as read by the export (id, name, code). -/
structure PermActionRec where
  id : Int
  name : String
  code : String
deriving DecidableEq, Repr

/-- CSV field escaping of `exportCSV` (line 413): wrap in double quotes,
double every embedded double quote (the global regex replace modelled
character by character). -/
def escCSV (s : String) : String :=
  "\"" ++ String.mk (s.toList.flatMap (fun c =>
    if c = '"' then ['"', '"'] else [c])) ++ "\""

/-- Header row of the role-scenario CSV (lines 409-411). -/
def roleCSVHeader : String :=
  "role_id,role_name,feature_id,feature_name,menu_id,menu_name,permission_action_id,permission_action_name,permission_action_code,createdAt,updatedAt,createdBy,updatedBy"

/-- The list of lines produced by `exportCSV` (lines 407-452).  `now` is
the value of `String(Date.now())` captured once at export time. -/
def exportCSV (mapping : RFMA) (roles : List RoleEntity)
    (features : List FeatureRec) (menus : List MenuRec)
    (perms : List PermActionRec) (now : String) : List String :=
  roleCSVHeader ::
    mapping.flatMap (fun r =>
      let role := roles.find? (fun x => toString x.id == r.1)
      r.2.flatMap (fun f =>
        let feature := features.find? (fun x => toString x.id == f.1)
        f.2.flatMap (fun q =>
          let menu := menus.find? (fun x => toString x.id == q.1)
          if q.2.isEmpty then []
          else q.2.map (fun pid =>
            let pa := perms.find? (fun x => toString x.id == pid)
            String.intercalate "," [
              escCSV r.1,
              escCSV ((role.map RoleEntity.name).getD ""),
              escCSV f.1,
              escCSV ((feature.map FeatureRec.name).getD ""),
              escCSV q.1,
              escCSV ((menu.map MenuRec.name).getD ""),
              escCSV pid,
              escCSV ((pa.map PermActionRec.name).getD ""),
              escCSV ((pa.map PermActionRec.code).getD ""),
              escCSV now,
              escCSV now,
              escCSV "system",
              escCSV "system"]))))

/-- Number of (role, feature, menu, action) quadruples stored in a
mapping; a menu entry with an empty action set contributes nothing. -/
def totalActions (m : RFMA) : Nat :=
  (m.map (fun r => (r.2.map (fun f => (f.2.map (fun q => q.2.length)).sum)).sum)).sum

/-- Character loop of the CSV line parser of `importCSV` (lines 350-372):
a double quote toggles quoting unless doubled inside quotes, a comma
outside quotes ends the field. -/
def parseLineAux : List Char → Bool → String → List String → List String
  | [], _, current, result => result ++ [current]
  | '"' :: '"' :: rest, true, current, result =>
      parseLineAux rest true (current.push '"') result
  | '"' :: rest, inQuotes, current, result =>
      parseLineAux rest (!inQuotes) current result
  | ',' :: rest, false, current, result =>
      parseLineAux rest false "" (result ++ [current])
  | c :: rest, inQuotes, current, result =>
      parseLineAux rest inQuotes (current.push c) result

/-- The `parseLine` closure of `importCSV`. -/
def parseLine (line : String) : List String :=
  parseLineAux line.toList false "" []

/-- The ASCII whitespace characters removed by the JS `trim()` calls in
these files. -/
def jsIsSpace (c : Char) : Bool :=
  c = ' ' || c = '\t' || c = '\n' || c = '\r' || c = '\x0b' || c = '\x0c'

/-- Model of JS `String.prototype.trim` (ASCII whitespace). -/
def trimChars (s : String) : String :=
  String.mk (((s.toList.dropWhile jsIsSpace).reverse.dropWhile
    jsIsSpace).reverse)

/-- Character scan splitting on the regular expression `\r?\n`:
a CRLF pair or a lone LF ends the current piece. -/
def splitLinesAux : List Char → List Char → List String
  | [], cur => [String.mk cur]
  | '\r' :: '\n' :: rest, cur => String.mk cur :: splitLinesAux rest []
  | '\n' :: rest, cur => String.mk cur :: splitLinesAux rest []
  | c :: rest, cur => splitLinesAux rest (cur ++ [c])

/-- Model of `text.split(/\r?\n/)`. -/
def splitLines (text : String) : List String :=
  splitLinesAux text.toList []

/-- State update and user-facing count of `importCSV` (lines 335-404)
once the file text is available: blank lines are dropped, a short file
aborts, the header is discarded, each remaining line must parse to at
least 7 columns with non-blank columns 0, 2, 4 and 6, and the accepted
rows build a fresh mapping that replaces the old one wholesale.  Returns
`none` for the "CSV file is empty or invalid" alert, otherwise the new
mapping and the row count reported by the success alert. -/
def importCSV (text : String) : Option (RFMA × Nat) :=
  let lines := (splitLines text).filter (fun l => trimChars l ≠ "")
  if lines.length < 2 then none
  else
    let dataLines := lines.tail
    let newMapping := dataLines.foldl (fun nm line =>
      let cols := parseLine line
      if cols.length < 7 then nm
      else
        let roleId := trimChars ((cols.get? 0).getD "")
        let featureId := trimChars ((cols.get? 2).getD "")
        let menuId := trimChars ((cols.get? 4).getD "")
        let permId := trimChars ((cols.get? 6).getD "")
        if roleId = "" ∨ featureId = "" ∨ menuId = "" ∨ permId = "" then nm
        else
          let byFeature := (jsLookup nm roleId).getD []
          let byMenu := (jsLookup byFeature featureId).getD []
          let sset := (jsLookup byMenu menuId).getD []
          jsSet nm roleId (jsSet byFeature featureId
            (jsSet byMenu menuId (jsSetAdd sset permId)))) []
    some (newMapping, dataLines.length - 1)

/-- Mapping of the package scenario (`PackageFeatureMap`): package-id to
set of feature-ids, both in string form. -/
abbrev PFMap := JsObj (List String)

/-- Decoder `fromPersist` of the package admin (PackageFeatureAdmin.tsx
lines 44-48): rebuild each feature set from its persisted array. -/
def fromPersistPF (raw : JsObj (List String)) : PFMap :=
  raw.foldl (fun m q => jsSet m q.1 (jsNewSet q.2)) []

/-- The reconciliation effect over the Package collection
(PackageFeatureAdmin.tsx lines 70-82): add an empty set for every package
id missing from the mapping, then delete every key no package id matches. -/
def ensurePackageKeys (m : PFMap) (pkgIds : List Int) : PFMap :=
  let next := pkgIds.foldl (fun n i => jsSetDefault n (toString i) []) m
  next.filter (fun p => pkgIds.any (fun i => toString i == p.1))

/-- Package entity as read and written by the modelled import
(`domain.ts`).  The fields description, price, durationDay, active,
createdBy and updatedBy are filled with constant defaults by
`createEmptyPackage` and never read on the modelled paths; they are
omitted. -/
structure PackageEntity where
  id : Int
  name : String
  code : String
  createdAt : String
  updatedAt : String
deriving DecidableEq, Repr

/-- Helper creator `createEmptyPackage` of `domain.ts` restricted to the
modelled fields; `nowIso` stands for `new Date().toISOString()`. -/
def createEmptyPackage (nextId : Int) (nowIso : String) : PackageEntity :=
  { id := nextId, name := "", code := "basic", createdAt := nowIso,
    updatedAt := nowIso }

/-- Feature entity as read and written by the modelled import
(`domain.ts`), restricted in the same way as `PackageEntity`. -/
structure FeatureEntity where
  id : Int
  name : String
  code : String
  createdAt : String
  updatedAt : String
deriving DecidableEq, Repr

/-- Helper creator `createEmptyFeature` of `domain.ts` restricted to the
modelled fields. -/
def createEmptyFeature (nextId : Int) (nowIso : String) : FeatureEntity :=
  { id := nextId, name := "", code := "", createdAt := nowIso,
    updatedAt := nowIso }

/-- Helper `nextIdFor` of PackageFeatureAdmin.tsx (lines 352-353):
`Math.max` over the ids plus one, or 1 for an empty collection. -/
def nextIdFor (ids : List Int) : Int :=
  match ids with
  | [] => 1
  | x :: xs => (xs.foldl max x) + 1

/-- Header normalization `normalize` (line 232): lower-case, then strip
every character outside ASCII `a-z0-9`.  The headers in scope are ASCII. -/
def normalize (s : String) : String :=
  String.mk ((s.toList.map Char.toLower).filter (fun c =>
    c.isLower || c.isDigit))

/-- Line parser of the package CSV import (lines 199-221): the same
character loop as the role import, followed by trimming every cell. -/
def pkgParseLine (line : String) : List String :=
  (parseLineAux line.toList false "" []).map (fun c => trimChars c)

/-- Building one header-keyed row object (lines 224-229):
`obj[h] = cells[i] ?? ""` for each header position. -/
def rowObj (headers cells : List String) : JsObj String :=
  headers.enum.foldl (fun obj p => jsSet obj p.2 ((cells.get? p.1).getD "")) []

/-- Parser `parseCSV` of the package admin (lines 192-230): drop blank
lines, read headers from the first line, and key every further line by
those headers. -/
def parseCSVPkg (text : String) : List (JsObj String) :=
  let filtered := (splitLines text).filter (fun l => trimChars l ≠ "")
  match filtered with
  | [] => []
  | headerLine :: rest =>
      let headers := (pkgParseLine headerLine).map (fun h => trimChars h)
      rest.map (fun ln => rowObj headers (pkgParseLine ln))

/-- Decimal digits of an id string, most significant first. -/
def natOfDigits : List Char → Option Nat → Option Nat
  | [], acc => acc
  | c :: cs, acc =>
      if c.isDigit then
        natOfDigits cs (acc.map (fun a => a * 10 + (c.toNat - 48)))
      else natOfDigits cs none

/-- Model of JS `Number(s)` restricted to the id strings of these CSV
files: an (optionally signed) decimal integer literal converts, anything
else is `NaN` (`none`). -/
def jsNumberInt (s : String) : Option Int :=
  match s.toList with
  | [] => none
  | '-' :: ds =>
      match ds with
      | [] => none
      | _ => (natOfDigits ds (some 0)).map (fun n => -(n : Int))
  | ds => (natOfDigits ds (some 0)).map (fun n => (n : Int))

/-- One row of the package import loop (lines 256-331): skip the row
when the package or feature id is blank, upsert the package, upsert the
feature, then record the pair in the fresh mapping. -/
def pkgImportStep (packages : List PackageEntity)
    (features : List FeatureEntity) (nowIso : String)
    (st : JsObj PackageEntity × JsObj FeatureEntity × JsObj (List String))
    (row : JsObj String) :
    JsObj PackageEntity × JsObj FeatureEntity × JsObj (List String) :=
  let pkgMap := st.1
  let featMap := st.2.1
  let newPersist := st.2.2
  let normRow := row.foldl (fun nr p => jsSet nr (normalize p.1) p.2) []
  let pkgIdRaw := (jsLookup normRow "packageid").getD
    ((jsLookup normRow "package_id").getD "")
  let pkgId := trimChars pkgIdRaw
  if pkgId = "" then st
  else
    let pkgName := (jsLookup normRow "packagename").getD ""
    let pkgCreatedAt := (jsLookup normRow "packagecreatedat").getD ""
    let pkgUpdatedAt := (jsLookup normRow "packageupdatedat").getD ""
    let featIdRaw := (jsLookup normRow "featureid").getD
      ((jsLookup normRow "feature_id").getD "")
    let featId := trimChars featIdRaw
    if featId = "" then st
    else
      let featName := (jsLookup normRow "featurename").getD ""
      let featCode := (jsLookup normRow "featurecode").getD ""
      let featCreatedAt := (jsLookup normRow "featurecreatedat").getD ""
      let featUpdatedAt := (jsLookup normRow "featureupdatedat").getD ""
      let pkgMap1 :=
        match jsLookup pkgMap pkgId with
        | none =>
            let idNum := jsNumberInt pkgId
            let created := createEmptyPackage
              (match idNum with
               | none => nextIdFor (packages.map PackageEntity.id)
               | some n => n) nowIso
            let newPkg : PackageEntity :=
              { created with
                id := match idNum with | none => created.id | some n => n,
                name := if pkgName = "" then created.name else pkgName,
                createdAt := if pkgCreatedAt = "" then created.createdAt
                             else pkgCreatedAt,
                updatedAt := if pkgUpdatedAt = "" then created.updatedAt
                             else pkgUpdatedAt,
                code := created.code }
            jsSet pkgMap (toString newPkg.id) newPkg
        | some existing =>
            let upd : PackageEntity :=
              { existing with
                name := if pkgName = "" then existing.name else pkgName,
                createdAt := if pkgCreatedAt = "" then existing.createdAt
                             else pkgCreatedAt,
                updatedAt := if pkgUpdatedAt = "" then existing.updatedAt
                             else pkgUpdatedAt }
            jsSet pkgMap pkgId upd
      let featMap1 :=
        match jsLookup featMap featId with
        | none =>
            let idNum := jsNumberInt featId
            let created := createEmptyFeature
              (match idNum with
               | none => nextIdFor (features.map FeatureEntity.id)
               | some n => n) nowIso
            let newFeat : FeatureEntity :=
              { created with
                id := match idNum with | none => created.id | some n => n,
                name := if featName = "" then created.name else featName,
                code := if featCode = "" then created.code else featCode,
                createdAt := if featCreatedAt = "" then created.createdAt
                             else featCreatedAt,
                updatedAt := if featUpdatedAt = "" then created.updatedAt
                             else featUpdatedAt }
            jsSet featMap (toString newFeat.id) newFeat
        | some existing =>
            let upd : FeatureEntity :=
              { existing with
                name := if featName = "" then existing.name else featName,
                code := if featCode = "" then existing.code else featCode,
                createdAt := if featCreatedAt = "" then existing.createdAt
                             else featCreatedAt,
                updatedAt := if featUpdatedAt = "" then existing.updatedAt
                             else featUpdatedAt }
            jsSet featMap featId upd
      let cur := (jsLookup newPersist pkgId).getD []
      let cur2 := if cur.contains featId then cur else cur ++ [featId]
      (pkgMap1, featMap1, jsSet newPersist pkgId cur2)

/-- Stable insertion of an element into an id-sorted list: placed before
the first strictly larger id, after any equal id (the tie order of the
stable JS `sort`). -/
def sortByIdInsert {α : Type} (idOf : α → Int) (x : α) :
    List α → List α
  | [] => [x]
  | y :: ys => if idOf x < idOf y then x :: y :: ys
               else y :: sortByIdInsert idOf x ys

/-- Model of the stable JS `arr.sort((a, b) => a.id - b.id)`. -/
def sortById {α : Type} (idOf : α → Int) : List α → List α
  | [] => []
  | x :: xs => sortByIdInsert idOf x (sortById idOf xs)

/-- State update of `handleFileChange` of the package admin (lines
234-349) once the file text is available: `none` models the
"No rows found in CSV" alert; otherwise the replaced Package and Feature
collections (values of the upsert maps, sorted by id ascending) and the
wholesale-replaced mapping. -/
def processPackageCSV (text : String) (packages : List PackageEntity)
    (features : List FeatureEntity) (nowIso : String) :
    Option (List PackageEntity × List FeatureEntity × PFMap) :=
  let parsed := parseCSVPkg text
  if parsed.isEmpty then none
  else
    let init := (packages.map (fun p => (toString p.id, p)),
                 features.map (fun f => (toString f.id, f)),
                 ([] : JsObj (List String)))
    let st := parsed.foldl (pkgImportStep packages features nowIso) init
    some (sortById PackageEntity.id (st.1.map Prod.snd),
          sortById FeatureEntity.id (st.2.1.map Prod.snd),
          fromPersistPF st.2.2)

/-- An item managed by the generic CRUD list editor (CrudList): a stable
integer id plus the remaining editable fields, abstracted as `payload`. -/
structure CrudItem (α : Type) where
  id : Int
  payload : α
deriving DecidableEq, Repr

/-- The `save` handler of CrudList: an add appends the draft; an edit
replaces the matching item with the draft, its id overwritten by the
stored id of the item being replaced. -/
def crudSave {α : Type} (items : List (CrudItem α)) (editingId : Int)
    (draft : CrudItem α) : List (CrudItem α) :=
  if editingId = -1 then items ++ [draft]
  else items.map (fun i =>
    if i.id = editingId then { draft with id := i.id } else i)

section JsLemmas

variable {α : Type}

theorem jsHasKey_cons (p : String × α) (m : JsObj α) (k : String) :
    jsHasKey (p :: m) k = ((p.1 == k) || jsHasKey m k) := by
  simp [jsHasKey]

theorem jsHasKey_append (m n : JsObj α) (k : String) :
    jsHasKey (m ++ n) k = (jsHasKey m k || jsHasKey n k) := by
  simp [jsHasKey, List.any_append]

theorem jsHasKey_iff (m : JsObj α) (k : String) :
    jsHasKey m k = true ↔ k ∈ jsKeys m := by
  induction m with
  | nil => simp [jsHasKey, jsKeys]
  | cons p m ih =>
      rw [jsHasKey_cons]
      simp only [jsKeys, List.map_cons, List.mem_cons, Bool.or_eq_true,
        beq_iff_eq, ← ih]
      tauto

theorem jsLookup_nil (k : String) : jsLookup ([] : JsObj α) k = none := rfl

theorem jsLookup_cons (p : String × α) (m : JsObj α) (k : String) :
    jsLookup (p :: m) k = if p.1 = k then some p.2 else jsLookup m k := by
  by_cases h : p.1 = k
  · simp [jsLookup, List.find?_cons, h]
  · have hb : (p.1 == k) = false := by simpa using h
    simp [jsLookup, List.find?_cons, hb, h]

theorem jsLookup_isSome_iff (m : JsObj α) (k : String) :
    (jsLookup m k).isSome = true ↔ k ∈ jsKeys m := by
  induction m with
  | nil => simp [jsLookup_nil, jsKeys]
  | cons p m ih =>
      rw [jsLookup_cons]
      by_cases h : p.1 = k
      · simp [h, jsKeys]
      · simp only [if_neg h, ih, jsKeys, List.map_cons, List.mem_cons]
        constructor
        · exact fun hm => Or.inr hm
        · rintro (he | hm)
          · exact absurd he.symm h
          · exact hm

theorem jsLookup_eq_none_iff (m : JsObj α) (k : String) :
    jsLookup m k = none ↔ k ∉ jsKeys m := by
  rw [← jsLookup_isSome_iff]
  cases jsLookup m k <;> simp

theorem jsLookup_append (m n : JsObj α) (k : String) :
    jsLookup (m ++ n) k =
      match jsLookup m k with
      | some v => some v
      | none => jsLookup n k := by
  induction m with
  | nil => simp [jsLookup_nil]
  | cons p m ih =>
      rw [List.cons_append, jsLookup_cons, jsLookup_cons]
      by_cases h : p.1 = k <;> simp [h, ih]

theorem jsLookup_singleton (k k' : String) (v : α) :
    jsLookup [(k, v)] k' = if k = k' then some v else none := by
  rw [jsLookup_cons]; rfl

theorem jsHasKey_eq_isSome (m : JsObj α) (k : String) :
    jsHasKey m k = (jsLookup m k).isSome := by
  by_cases h : k ∈ jsKeys m
  · rw [(jsHasKey_iff m k).mpr h, ((jsLookup_isSome_iff m k).mpr h).symm]
  · have h1 : jsHasKey m k = false := by
      cases he : jsHasKey m k
      · rfl
      · exact absurd ((jsHasKey_iff m k).mp he) h
    have h2 : jsLookup m k = none := (jsLookup_eq_none_iff m k).mpr h
    rw [h1, h2]; rfl

theorem jsSet_of_not_has {m : JsObj α} {k : String} (h : jsHasKey m k = false)
    (v : α) : jsSet m k v = m ++ [(k, v)] := by
  simp [jsSet, h]

theorem jsSetDefault_of_not_has {m : JsObj α} {k : String}
    (h : jsHasKey m k = false) (v : α) : jsSetDefault m k v = m ++ [(k, v)] := by
  simp [jsSetDefault, h]

theorem jsSetDefault_of_has {m : JsObj α} {k : String}
    (h : jsHasKey m k = true) (v : α) : jsSetDefault m k v = m := by
  simp [jsSetDefault, h]

theorem jsKeys_append (m n : JsObj α) : jsKeys (m ++ n) = jsKeys m ++ jsKeys n := by
  simp [jsKeys]

theorem jsLookup_map_replace (m : JsObj α) (k : String) (v : α) :
    jsLookup (m.map (fun p => if p.1 == k then (k, v) else p)) k =
      (jsLookup m k).map (fun _ => v) := by
  induction m with
  | nil => simp [jsLookup_nil]
  | cons p m ih =>
      rw [List.map_cons]
      by_cases hp : p.1 = k
      · rw [if_pos (by simpa using hp), jsLookup_cons, jsLookup_cons,
          if_pos rfl, if_pos hp]
        rfl
      · rw [if_neg (by simpa using hp), jsLookup_cons, jsLookup_cons,
          if_neg hp, if_neg hp, ih]

theorem jsLookup_map_replace_ne (m : JsObj α) {k k' : String} (h : k ≠ k')
    (v : α) :
    jsLookup (m.map (fun p => if p.1 == k then (k, v) else p)) k' =
      jsLookup m k' := by
  induction m with
  | nil => simp [jsLookup_nil]
  | cons p m ih =>
      rw [List.map_cons]
      by_cases hp : p.1 = k
      · rw [if_pos (by simpa using hp), jsLookup_cons, jsLookup_cons,
          if_neg h, if_neg (hp ▸ h), ih]
      · rw [if_neg (by simpa using hp), jsLookup_cons, jsLookup_cons, ih]

theorem map_replace_of_not_has {m : JsObj α} {k : String}
    (h : jsHasKey m k = false) (v : α) :
    m.map (fun p => if p.1 == k then (k, v) else p) = m := by
  induction m with
  | nil => rfl
  | cons p m ih =>
      rw [jsHasKey_cons, Bool.or_eq_false_iff] at h
      rw [List.map_cons, if_neg (by simp [h.1]), ih h.2]

theorem jsLookup_jsSet (m : JsObj α) (k : String) (v : α) :
    jsLookup (jsSet m k v) k = some v := by
  unfold jsSet
  by_cases h : jsHasKey m k = true
  · rw [if_pos h, jsLookup_map_replace]
    have := (jsLookup_isSome_iff m k).mpr ((jsHasKey_iff m k).mp h)
    cases he : jsLookup m k
    · rw [he] at this; simp at this
    · rfl
  · rw [if_neg h, jsLookup_append, (jsLookup_eq_none_iff m k).mpr
      (fun hk => h ((jsHasKey_iff m k).mpr hk))]
    simp [jsLookup_singleton]

theorem jsLookup_jsSet_ne (m : JsObj α) {k k' : String} (h : k ≠ k') (v : α) :
    jsLookup (jsSet m k v) k' = jsLookup m k' := by
  unfold jsSet
  by_cases hh : jsHasKey m k = true
  · rw [if_pos hh, jsLookup_map_replace_ne m h]
  · rw [if_neg hh, jsLookup_append]
    rw [jsLookup_singleton, if_neg h]
    cases jsLookup m k' <;> rfl

theorem jsKeys_jsSet_of_has {m : JsObj α} {k : String}
    (h : jsHasKey m k = true) (v : α) : jsKeys (jsSet m k v) = jsKeys m := by
  simp only [jsSet, h, if_true, jsKeys, List.map_map]
  apply List.map_congr_left
  intro p _
  by_cases hp : p.1 = k
  · simp [hp]
  · rw [Function.comp_apply, if_neg (by simpa using hp)]

theorem jsKeys_jsSet_of_not_has {m : JsObj α} {k : String}
    (h : jsHasKey m k = false) (v : α) : jsKeys (jsSet m k v) = jsKeys m ++ [k] := by
  rw [jsSet_of_not_has h, jsKeys_append]; rfl

theorem jsSet_jsSetDefault (m : JsObj α) (k : String) (w v : α) :
    jsSet (jsSetDefault m k w) k v = jsSet m k v := by
  unfold jsSetDefault
  by_cases h : jsHasKey m k = true
  · rw [if_pos h]
  · rw [if_neg h]
    have h2 : jsHasKey (m ++ [(k, w)]) k = true := by
      apply (jsHasKey_iff _ k).mpr
      rw [jsKeys_append]
      simp [jsKeys]
    have h3 : jsHasKey m k = false := by
      cases he : jsHasKey m k
      · rfl
      · exact absurd he h
    rw [jsSet, if_pos h2, jsSet, if_neg h, List.map_append,
      map_replace_of_not_has h3]
    simp

theorem jsLookup_jsSetDefault_ne (m : JsObj α) {k k' : String} (h : k ≠ k')
    (v : α) : jsLookup (jsSetDefault m k v) k' = jsLookup m k' := by
  unfold jsSetDefault
  by_cases hh : jsHasKey m k = true
  · rw [if_pos hh]
  · rw [if_neg hh, jsLookup_append, jsLookup_singleton, if_neg h]
    cases jsLookup m k' <;> rfl

end JsLemmas

section SetLemmas

theorem contains_false_iff (l : List String) (x : String) :
    l.contains x = false ↔ x ∉ l := by
  induction l with
  | nil => simp
  | cons y l ih =>
      rw [List.contains_cons]
      simp only [Bool.or_eq_false_iff, ih, List.mem_cons, not_or, beq_eq_false_iff_ne]

theorem jsNewSetAux_eq_self :
    ∀ (xs seen : List String), xs.Nodup →
      (∀ x ∈ xs, seen.contains x = false) → jsNewSetAux seen xs = xs
  | [], _, _, _ => rfl
  | x :: xs, seen, hnd, hs => by
      unfold jsNewSetAux
      rw [if_neg (by rw [hs x (by simp)]; simp)]
      congr 1
      apply jsNewSetAux_eq_self xs (seen ++ [x]) (List.nodup_cons.mp hnd).2
      intro y hy
      apply (contains_false_iff _ y).mpr
      intro hmem
      rcases List.mem_append.mp hmem with h1 | h1
      · exact ((contains_false_iff seen y).mp
          (hs y (List.mem_cons_of_mem x hy))) h1
      · have hyx : y = x := by simpa using h1
        exact (List.nodup_cons.mp hnd).1 (hyx ▸ hy)

theorem jsNewSet_eq_self {s : List String} (h : s.Nodup) : jsNewSet s = s :=
  jsNewSetAux_eq_self s [] h (fun x _ => rfl)

theorem jsNewSet_mem_iff : ∀ (xs seen : List String) (y : String),
    y ∈ jsNewSetAux seen xs ↔ (y ∈ xs ∧ seen.contains y = false)
  | [], _, y => by simp [jsNewSetAux]
  | x :: xs, seen, y => by
      unfold jsNewSetAux
      by_cases hc : seen.contains x = true
      · rw [if_pos hc, jsNewSet_mem_iff xs seen y]
        constructor
        · rintro ⟨h1, h2⟩
          exact ⟨List.mem_cons_of_mem x h1, h2⟩
        · rintro ⟨h1, h2⟩
          rcases List.mem_cons.mp h1 with rfl | h1
          · exact Bool.noConfusion (hc.symm.trans h2)
          · exact ⟨h1, h2⟩
      · rw [if_neg hc, List.mem_cons, jsNewSet_mem_iff xs (seen ++ [x]) y]
        have hcf : seen.contains x = false := by
          cases he : seen.contains x
          · rfl
          · exact absurd he hc
        constructor
        · rintro (rfl | ⟨h1, h2⟩)
          · exact ⟨List.mem_cons_self _ _, hcf⟩
          · refine ⟨List.mem_cons_of_mem x h1, ?_⟩
            apply (contains_false_iff _ y).mpr
            intro hy
            exact ((contains_false_iff _ y).mp h2)
              (List.mem_append.mpr (Or.inl hy))
        · rintro ⟨h1, h2⟩
          rcases List.mem_cons.mp h1 with rfl | h1
          · exact Or.inl rfl
          · by_cases hxy : y = x
            · exact Or.inl hxy
            · refine Or.inr ⟨h1, ?_⟩
              apply (contains_false_iff _ y).mpr
              intro hy
              rcases List.mem_append.mp hy with hh | hh
              · exact ((contains_false_iff seen y).mp h2) hh
              · exact hxy (by simpa using hh)

theorem jsNewSet_nodup : ∀ (xs seen : List String), (jsNewSetAux seen xs).Nodup
  | [], _ => List.nodup_nil
  | x :: xs, seen => by
      unfold jsNewSetAux
      by_cases hc : seen.contains x = true
      · rw [if_pos hc]
        exact jsNewSet_nodup xs seen
      · rw [if_neg hc]
        refine List.nodup_cons.mpr ⟨?_, jsNewSet_nodup xs (seen ++ [x])⟩
        intro hmem
        have := (jsNewSet_mem_iff xs (seen ++ [x]) x).mp hmem
        exact absurd (this.2) (by simp [contains_false_iff])

end SetLemmas

section FoldLemmas

theorem foldl_jsSet_fresh {β γ : Type} (g : String → β → γ) :
    ∀ (l : List (String × β)) (acc : JsObj γ),
      (l.map Prod.fst).Nodup →
      (∀ k ∈ l.map Prod.fst, jsHasKey acc k = false) →
      l.foldl (fun a p => jsSet a p.1 (g p.1 p.2)) acc =
        acc ++ l.map (fun p => (p.1, g p.1 p.2))
  | [], acc, _, _ => by simp
  | p :: l, acc, hnd, hfresh => by
      rw [List.foldl_cons]
      have hp : jsHasKey acc p.1 = false := hfresh p.1 (by simp)
      rw [jsSet_of_not_has hp]
      rw [List.map_cons, List.nodup_cons] at hnd
      have hnd0 := hnd
      have hfresh1 : ∀ k ∈ l.map Prod.fst,
          jsHasKey (acc ++ [(p.1, g p.1 p.2)]) k = false := by
        intro k hk
        rw [jsHasKey_append]
        have h1 : jsHasKey acc k = false := hfresh k (by simp [hk])
        have h2 : jsHasKey [(p.1, g p.1 p.2)] k = false := by
          have hne : ¬ (p.1 = k) := fun he => hnd0.1 (he ▸ hk)
          simp [jsHasKey, hne]
        rw [h1, h2]
        rfl
      rw [foldl_jsSet_fresh g l _ hnd0.2 hfresh1]
      simp

theorem jsLookup_foldl_dec {γ : Type}
    (step : JsObj γ → (String × JValue) → JsObj γ) (dec : JValue → Option γ)
    (hstep : ∀ out q, step out q = ((dec q.2).map (jsSet out q.1)).getD out) :
    ∀ (l : List (String × JValue)) (acc : JsObj γ) (k : String),
      (l.map Prod.fst).Nodup →
      jsLookup (l.foldl step acc) k =
        ((jsLookup l k).bind dec).or (jsLookup acc k)
  | [], acc, k, _ => by simp [jsLookup_nil]
  | q :: l, acc, k, hnd => by
      rw [List.foldl_cons, hstep acc q]
      rw [List.map_cons, List.nodup_cons] at hnd
      have hnd0 := hnd
      by_cases hk : q.1 = k
      · subst hk
        have hrest : jsLookup l q.1 = none := by
          apply (jsLookup_eq_none_iff l q.1).mpr
          exact fun h => hnd0.1 (by simpa [jsKeys] using h)
        cases hdec : dec q.2 with
        | none =>
            rw [show ((none : Option γ).map (jsSet acc q.1)).getD acc
              = acc from rfl]
            rw [jsLookup_foldl_dec step dec hstep l acc q.1 hnd0.2, hrest,
              jsLookup_cons, if_pos rfl]
            simp [hdec]
        | some v =>
            rw [show ((some v).map (jsSet acc q.1)).getD acc
              = jsSet acc q.1 v from rfl]
            rw [jsLookup_foldl_dec step dec hstep l (jsSet acc q.1 v) q.1
              hnd0.2, hrest, jsLookup_cons, if_pos rfl, jsLookup_jsSet]
            simp [hdec]
      · cases hdec : dec q.2 with
        | none =>
            rw [show ((none : Option γ).map (jsSet acc q.1)).getD acc
              = acc from rfl]
            rw [jsLookup_foldl_dec step dec hstep l acc k hnd0.2,
              jsLookup_cons, if_neg hk]
        | some v =>
            rw [show ((some v).map (jsSet acc q.1)).getD acc
              = jsSet acc q.1 v from rfl]
            rw [jsLookup_foldl_dec step dec hstep l (jsSet acc q.1 v) k
              hnd0.2, jsLookup_cons, if_neg hk, jsLookup_jsSet_ne acc hk]

end FoldLemmas

section CodecLemmas

theorem jsString_jstr (s : String) : jsString (.jstr s) = s := rfl

theorem fromPersistMenusStep_eq (out : MenuMap) (q : String × JValue) :
    fromPersistMenusStep out q =
      ((decodeMenuValue q.2).map (jsSet out q.1)).getD out := by
  rcases q with ⟨k, v⟩
  cases v <;> rfl

theorem fromPersistFeaturesStep_eq (out : FeatureMap) (q : String × JValue) :
    fromPersistFeaturesStep out q =
      ((decodeFeatureValue q.2).map (jsSet out q.1)).getD out := by
  rcases q with ⟨k, v⟩
  cases v <;> rfl

theorem fromPersistRolesStep_eq (out : RFMA) (r : String × JValue) :
    fromPersistRolesStep out r =
      (((fun v => some (decodeRoleValue v)) r.2).map (jsSet out r.1)).getD out := by
  rcases r with ⟨k, v⟩
  cases v <;> rfl

theorem jsLookup_fromPersistMenus (l : List (String × JValue))
    (h : (l.map Prod.fst).Nodup) (k : String) :
    jsLookup (fromPersistMenus l) k = (jsLookup l k).bind decodeMenuValue := by
  unfold fromPersistMenus
  rw [jsLookup_foldl_dec fromPersistMenusStep decodeMenuValue
    fromPersistMenusStep_eq l [] k h, jsLookup_nil, Option.or_none]

theorem jsLookup_fromPersistFeatures (l : List (String × JValue))
    (h : (l.map Prod.fst).Nodup) (k : String) :
    jsLookup (fromPersistFeatures l) k = (jsLookup l k).bind decodeFeatureValue := by
  unfold fromPersistFeatures
  rw [jsLookup_foldl_dec fromPersistFeaturesStep decodeFeatureValue
    fromPersistFeaturesStep_eq l [] k h, jsLookup_nil, Option.or_none]

theorem fromPersistRFMA_jobj (byRole : List (String × JValue)) :
    fromPersistRFMA (.jobj byRole) = byRole.foldl fromPersistRolesStep [] := rfl

theorem jsLookup_fromPersistRFMA_obj (byRole : List (String × JValue))
    (h : (byRole.map Prod.fst).Nodup) (k : String) :
    jsLookup (fromPersistRFMA (.jobj byRole)) k =
      (jsLookup byRole k).map decodeRoleValue := by
  rw [fromPersistRFMA_jobj]
  rw [jsLookup_foldl_dec fromPersistRolesStep (fun v => some (decodeRoleValue v))
    fromPersistRolesStep_eq byRole [] k h, jsLookup_nil, Option.or_none]
  cases jsLookup byRole k <;> rfl

theorem fromPersistMenus_enc (byM : MenuMap) (h : WFMenuMap byM) :
    fromPersistMenus
      (byM.map (fun q => (q.1, JValue.jarr (q.2.map JValue.jstr)))) = byM := by
  unfold fromPersistMenus
  have hext := List.foldl_ext fromPersistMenusStep
    (fun (out : MenuMap) (q : String × JValue) =>
      jsSet out q.1 ((fun (_ : String) (v : JValue) =>
        (decodeMenuValue v).getD []) q.1 q.2))
    ([] : MenuMap)
    (l := byM.map (fun q => (q.1, JValue.jarr (q.2.map JValue.jstr))))
    (by
      intro a q hq
      rw [List.mem_map] at hq
      obtain ⟨q0, _, rfl⟩ := hq
      rfl)
  rw [hext]
  have hnd : ((byM.map (fun q =>
      (q.1, JValue.jarr (q.2.map JValue.jstr)))).map Prod.fst).Nodup := by
    rw [List.map_map]
    exact h.1
  rw [foldl_jsSet_fresh (fun (_ : String) (v : JValue) =>
    (decodeMenuValue v).getD []) _ [] hnd (fun k _ => rfl)]
  rw [List.nil_append, List.map_map]
  have hid : byM = byM.map id := (List.map_id byM).symm
  conv_rhs => rw [hid]
  apply List.map_congr_left
  intro q hq
  rcases q with ⟨k0, s⟩
  have hs : WFSet s := h.2 ⟨k0, s⟩ hq
  simp only [Function.comp_apply, decodeMenuValue, List.map_map, id]
  have hcomp : s.map (jsString ∘ JValue.jstr) = s := by
    rw [show (jsString ∘ JValue.jstr) = id from funext (fun x => rfl),
      List.map_id]
  rw [hcomp, Option.getD_some, jsNewSet_eq_self hs]

theorem fromPersistFeatures_enc (byF : FeatureMap) (h : WFFeatureMap byF) :
    fromPersistFeatures
      (byF.map (fun f => (f.1, JValue.jobj (f.2.map (fun q =>
        (q.1, JValue.jarr (q.2.map JValue.jstr))))))) = byF := by
  unfold fromPersistFeatures
  have hext := List.foldl_ext fromPersistFeaturesStep
    (fun (out : FeatureMap) (q : String × JValue) =>
      jsSet out q.1 ((fun (_ : String) (v : JValue) =>
        (decodeFeatureValue v).getD []) q.1 q.2))
    ([] : FeatureMap)
    (l := byF.map (fun f => (f.1, JValue.jobj (f.2.map (fun q =>
      (q.1, JValue.jarr (q.2.map JValue.jstr)))))))
    (by
      intro a q hq
      rw [List.mem_map] at hq
      obtain ⟨q0, _, rfl⟩ := hq
      rfl)
  rw [hext]
  have hnd : ((byF.map (fun f => (f.1, JValue.jobj (f.2.map (fun q =>
      (q.1, JValue.jarr (q.2.map JValue.jstr))))))).map Prod.fst).Nodup := by
    rw [List.map_map]
    exact h.1
  rw [foldl_jsSet_fresh (fun (_ : String) (v : JValue) =>
    (decodeFeatureValue v).getD []) _ [] hnd (fun k _ => rfl)]
  rw [List.nil_append, List.map_map]
  have hid : byF = byF.map id := (List.map_id byF).symm
  conv_rhs => rw [hid]
  apply List.map_congr_left
  intro f hf
  rcases f with ⟨k0, byM⟩
  have hm : WFMenuMap byM := h.2 ⟨k0, byM⟩ hf
  simp only [Function.comp_apply, decodeFeatureValue, Option.getD_some, id]
  rw [fromPersistMenus_enc byM hm]

theorem fromPersist_toPersist (m : RFMA) (h : WFRFMA m) :
    fromPersistRFMA (toPersistRFMA m) = m := by
  unfold toPersistRFMA
  rw [fromPersistRFMA_jobj]
  have hext := List.foldl_ext fromPersistRolesStep
    (fun (out : RFMA) (r : String × JValue) =>
      jsSet out r.1 ((fun (_ : String) (v : JValue) =>
        decodeRoleValue v) r.1 r.2))
    ([] : RFMA)
    (l := m.map (fun r => (r.1, JValue.jobj (r.2.map (fun f =>
      (f.1, JValue.jobj (f.2.map (fun q =>
        (q.1, JValue.jarr (q.2.map JValue.jstr))))))))))
    (by
      intro a r hr
      rw [List.mem_map] at hr
      obtain ⟨r0, _, rfl⟩ := hr
      rfl)
  rw [hext]
  have hnd : ((m.map (fun r => (r.1, JValue.jobj (r.2.map (fun f =>
      (f.1, JValue.jobj (f.2.map (fun q =>
        (q.1, JValue.jarr (q.2.map JValue.jstr)))))))))).map Prod.fst).Nodup := by
    rw [List.map_map]
    exact h.1
  rw [foldl_jsSet_fresh (fun (_ : String) (v : JValue) =>
    decodeRoleValue v) _ [] hnd (fun k _ => rfl)]
  rw [List.nil_append, List.map_map]
  have hid : m = m.map id := (List.map_id m).symm
  conv_rhs => rw [hid]
  apply List.map_congr_left
  intro r hr
  rcases r with ⟨k0, byF⟩
  have hf : WFFeatureMap byF := h.2 ⟨k0, byF⟩ hr
  simp only [Function.comp_apply, decodeRoleValue, jsEntries, id]
  rw [fromPersistFeatures_enc byF hf]

end CodecLemmas

theorem jsLookup_of_mem_nodup {α : Type} {l : JsObj α} {k : String} {v : α}
    (hnd : (l.map Prod.fst).Nodup) (hmem : (k, v) ∈ l) :
    jsLookup l k = some v := by
  induction l with
  | nil => cases hmem
  | cons p l ih =>
      rw [List.map_cons, List.nodup_cons] at hnd
      rw [jsLookup_cons]
      rcases List.mem_cons.mp hmem with heq | hmem2
      · subst heq
        rw [if_pos rfl]
      · by_cases hp : p.1 = k
        · exact absurd (List.mem_map_of_mem Prod.fst hmem2)
            (by rw [hp] at hnd; exact hnd.1)
        · rw [if_neg hp]
          exact ih hnd.2 hmem2

/-- C1: a persisted role entry whose feature-position value is an array
(the legacy flat shape) decodes to that array installed, element-wise
stringified, under the synthetic menu key "-1"; in particular the
document of property P2 decodes as the spec states, the stringification
covers numeric elements, a document mixing legacy and current shapes
across role and feature entries decodes each feature entry by its own
shape, and in general the decoded value at a legacy feature key depends
only on that entry's own array. -/
theorem C1_legacy_migration :
    (fromPersistRFMA (.jobj [("1", .jobj [("2", .jarr [.jstr "5", .jstr "6"])])]) =
      [("1", [("2", [("-1", ["5", "6"])])])]) ∧
    (fromPersistRFMA (.jobj [("1", .jobj [("2", .jarr [.jstr "5", .jnum 6])])]) =
      [("1", [("2", [("-1", ["5", "6"])])])]) ∧
    (fromPersistRFMA (.jobj
        [("1", .jobj [("2", .jarr [.jstr "5"]),
                      ("3", .jobj [("7", .jarr [.jstr "8"])])]),
         ("4", .jobj [("9", .jobj [("10", .jarr [.jstr "11"])]),
                      ("12", .jarr [.jstr "13"])])]) =
      [("1", [("2", [("-1", ["5"])]), ("3", [("7", ["8"])])]),
       ("4", [("9", [("10", ["11"])]), ("12", [("-1", ["13"])])])]) ∧
    (∀ (ffields : List (String × JValue)) (fid : String) (xs : List JValue),
      (ffields.map Prod.fst).Nodup →
      (fid, JValue.jarr xs) ∈ ffields →
      jsLookup (fromPersistFeatures ffields) fid =
        some [("-1", jsNewSet (xs.map jsString))]) := by
  refine ⟨by decide, by decide, by decide, ?_⟩
  intro ffields fid xs hnd hmem
  rw [jsLookup_fromPersistFeatures ffields hnd fid,
    jsLookup_of_mem_nodup hnd hmem]
  rfl

/-- Witness for the universally quantified part of C1: a feature object
holding a legacy array entry next to an object-shaped entry decodes the
array entry under the synthetic menu key. -/
theorem C1_legacy_migration_witness :
    jsLookup (fromPersistFeatures
      [("2", .jarr [.jstr "5"]), ("3", .jobj [("7", .jarr [.jstr "8"])])]) "2" =
      some [("-1", ["5"])] :=
  C1_legacy_migration.2.2.2
    [("2", .jarr [.jstr "5"]), ("3", .jobj [("7", .jarr [.jstr "8"])])]
    "2" [.jstr "5"] (by decide) (List.mem_cons_self _ _)

/-- C2: decoding the encoded form of a well-formed
`RoleFeatureMenuActionMap` (unique keys at every level, duplicate-free
sets, the invariant of every in-memory map) returns the map itself: same
role, feature and menu keys and the same action set at every leaf. -/
theorem C2_roundtrip (m : RFMA) (h : WFRFMA m) :
    fromPersistRFMA (toPersistRFMA m) = m :=
  fromPersist_toPersist m h

/-- Witness for C2 on a concrete two-role map with an empty role entry. -/
theorem C2_roundtrip_witness :
    WFRFMA [("1", [("2", [("3", ["5", "6"]), ("-1", ["7"])])]), ("2", [])] ∧
    fromPersistRFMA (toPersistRFMA
        [("1", [("2", [("3", ["5", "6"]), ("-1", ["7"])])]), ("2", [])]) =
      [("1", [("2", [("3", ["5", "6"]), ("-1", ["7"])])]), ("2", [])] :=
  ⟨by decide, C2_roundtrip _ (by decide)⟩

/-- C8: the decoder is total and recovers locally.  A top-level value
that is `null` or not `typeof "object"` (boolean, number, string)
decodes to the empty map; inside an object, a feature-position value
that is neither an array nor an object is skipped (its key is absent
from the decoded entry), a menu-position value that is not an array is
skipped, and every other entry of the document still decodes from its
own value alone. -/
theorem C8_decoder_total :
    (fromPersistRFMA .jnull = []) ∧
    (∀ b, fromPersistRFMA (.jbool b) = []) ∧
    (∀ n, fromPersistRFMA (.jnum n) = []) ∧
    (∀ s, fromPersistRFMA (.jstr s) = []) ∧
    (∀ (ffields : List (String × JValue)) (fid : String) (v : JValue),
      (ffields.map Prod.fst).Nodup → (fid, v) ∈ ffields →
      (∀ xs, v ≠ JValue.jarr xs) → (∀ fs, v ≠ JValue.jobj fs) →
      jsLookup (fromPersistFeatures ffields) fid = none) ∧
    (∀ (mfields : List (String × JValue)) (mid : String) (v : JValue),
      (mfields.map Prod.fst).Nodup → (mid, v) ∈ mfields →
      (∀ xs, v ≠ JValue.jarr xs) →
      jsLookup (fromPersistMenus mfields) mid = none) ∧
    (∀ (ffields : List (String × JValue)) (k : String),
      (ffields.map Prod.fst).Nodup →
      jsLookup (fromPersistFeatures ffields) k =
        (jsLookup ffields k).bind decodeFeatureValue) := by
  refine ⟨rfl, fun b => rfl, fun n => rfl, fun s => rfl, ?_, ?_, ?_⟩
  · intro ffields fid v hnd hmem harr hobj
    rw [jsLookup_fromPersistFeatures ffields hnd fid,
      jsLookup_of_mem_nodup hnd hmem]
    cases v with
    | jarr xs => exact absurd rfl (harr xs)
    | jobj fs => exact absurd rfl (hobj fs)
    | jnull => rfl
    | jbool b => rfl
    | jnum n => rfl
    | jstr s => rfl
  · intro mfields mid v hnd hmem harr
    rw [jsLookup_fromPersistMenus mfields hnd mid,
      jsLookup_of_mem_nodup hnd hmem]
    cases v with
    | jarr xs => exact absurd rfl (harr xs)
    | jobj fs => rfl
    | jnull => rfl
    | jbool b => rfl
    | jnum n => rfl
    | jstr s => rfl
  · intro ffields k hnd
    exact jsLookup_fromPersistFeatures ffields hnd k

/-- Witness for C8: a malformed numeric feature entry is skipped while
its well-formed sibling still decodes. -/
theorem C8_decoder_total_witness :
    jsLookup (fromPersistMenus [("3", .jnum 7), ("4", .jarr [.jstr "5"])]) "3" =
      none :=
  C8_decoder_total.2.2.2.2.2.1
    [("3", .jnum 7), ("4", .jarr [.jstr "5"])] "3" (.jnum 7)
    (by decide) (List.mem_cons_self _ _) (fun xs h => JValue.noConfusion h)

section EnsureLemmas

variable {α : Type}

theorem jsLookup_jsSetDefault (m : JsObj α) (k k' : String) (d : α) :
    jsLookup (jsSetDefault m k d) k' =
      match jsLookup m k' with
      | some v => some v
      | none => if k = k' then some d else none := by
  unfold jsSetDefault
  by_cases h : jsHasKey m k = true
  · rw [if_pos h]
    cases hv : jsLookup m k' with
    | some v => rfl
    | none =>
        by_cases hk : k = k'
        · subst hk
          rw [jsHasKey_eq_isSome, hv] at h
          cases h
        · simp [hk]
  · rw [if_neg h, jsLookup_append, jsLookup_singleton]

theorem jsLookup_foldl_setDefault (f : Int → String) (d : α) :
    ∀ (ids : List Int) (m : JsObj α) (k : String),
      jsLookup (ids.foldl (fun n i => jsSetDefault n (f i) d) m) k =
        match jsLookup m k with
        | some v => some v
        | none => if ids.any (fun i => f i == k) then some d else none
  | [], m, k => by
      rw [List.foldl_nil]
      cases hv : jsLookup m k with
      | some v => rfl
      | none => simp
  | i :: ids, m, k => by
      rw [List.foldl_cons,
        jsLookup_foldl_setDefault f d ids (jsSetDefault m (f i) d) k,
        jsLookup_jsSetDefault m (f i) k d]
      cases hv : jsLookup m k with
      | some v => rfl
      | none =>
          by_cases hk : f i = k
          · simp [hk]
          · have hb : (f i == k) = false := by simpa using hk
            simp only [if_neg hk, List.any_cons, hb, Bool.false_or]

theorem jsLookup_filter_key (m : JsObj α) (pr : String → Bool) (k : String) :
    jsLookup (m.filter (fun p => pr p.1)) k =
      if pr k then jsLookup m k else none := by
  induction m with
  | nil =>
      rw [List.filter_nil]
      cases hp : pr k <;> simp [jsLookup_nil]
  | cons p m ih =>
      rw [List.filter_cons]
      by_cases hpp : pr p.1 = true
      · rw [if_pos hpp, jsLookup_cons]
        by_cases hk : p.1 = k
        · subst hk
          rw [if_pos rfl, if_pos hpp, jsLookup_cons, if_pos rfl]
        · rw [if_neg hk, ih, jsLookup_cons]
          by_cases hpk : pr k = true
          · rw [if_pos hpk, if_pos hpk, if_neg hk]
          · rw [if_neg hpk, if_neg hpk]
      · rw [if_neg hpp, ih]
        by_cases hpk : pr k = true
        · have hk : ¬ (p.1 = k) := fun he => hpp (he ▸ hpk)
          rw [if_pos hpk, if_pos hpk, jsLookup_cons, if_neg hk]
        · rw [if_neg hpk, if_neg hpk]

theorem ensure_generic (ids : List Int) (m : JsObj α) (d : α) (k : String) :
    jsLookup ((ids.foldl (fun n i => jsSetDefault n (toString i) d) m).filter
        (fun p => ids.any (fun i => toString i == p.1))) k =
      if ids.any (fun i => toString i == k) then
        match jsLookup m k with
        | some v => some v
        | none => some d
      else none := by
  rw [jsLookup_filter_key _ (fun s => ids.any (fun i => toString i == s)) k,
    jsLookup_foldl_setDefault (fun i => toString i) d ids m k]
  cases hv : jsLookup m k with
  | some v => simp only [hv]
  | none =>
      simp only [hv]
      by_cases ha : (ids.any fun i => toString i == k) = true
      · simp only [ha, if_true]
      · have ha2 : (ids.any fun i => toString i == k) = false := by
          cases he : ids.any fun i => toString i == k
          · rfl
          · exact absurd he ha
        simp only [ha2, Bool.false_eq_true, if_false]

theorem any_toString_iff (ids : List Int) (k : String) :
    (ids.any fun i => toString i == k) = true ↔ ∃ i ∈ ids, toString i = k := by
  simp [List.any_eq_true]

theorem any_toString_false (ids : List Int) (k : String)
    (h : ¬ ∃ i ∈ ids, toString i = k) :
    (ids.any fun i => toString i == k) = false := by
  cases he : ids.any fun i => toString i == k
  · rfl
  · exact absurd ((any_toString_iff ids k).mp he) h

end EnsureLemmas

/-- C5: after reconciliation the top-level key set is exactly the set of
string forms of the current entity ids, in both scenarios: a surviving
key keeps its sub-map unchanged, a missing entity id is added with an
empty sub-map (role scenario) or empty set (package scenario), and a key
with no matching entity is deleted together with its data. -/
theorem C5_reconciliation :
    (∀ (m : RFMA) (ids : List Int) (k : String),
      k ∈ jsKeys (ensureRoleKeys m ids) ↔ ∃ i ∈ ids, toString i = k) ∧
    (∀ (m : RFMA) (ids : List Int) (k : String) (v : FeatureMap),
      (∃ i ∈ ids, toString i = k) → jsLookup m k = some v →
      jsLookup (ensureRoleKeys m ids) k = some v) ∧
    (∀ (m : RFMA) (ids : List Int) (k : String),
      (∃ i ∈ ids, toString i = k) → jsLookup m k = none →
      jsLookup (ensureRoleKeys m ids) k = some []) ∧
    (∀ (m : RFMA) (ids : List Int) (k : String),
      (¬ ∃ i ∈ ids, toString i = k) →
      jsLookup (ensureRoleKeys m ids) k = none) ∧
    (∀ (m : PFMap) (ids : List Int) (k : String),
      k ∈ jsKeys (ensurePackageKeys m ids) ↔ ∃ i ∈ ids, toString i = k) ∧
    (∀ (m : PFMap) (ids : List Int) (k : String) (v : List String),
      (∃ i ∈ ids, toString i = k) → jsLookup m k = some v →
      jsLookup (ensurePackageKeys m ids) k = some v) ∧
    (∀ (m : PFMap) (ids : List Int) (k : String),
      (∃ i ∈ ids, toString i = k) → jsLookup m k = none →
      jsLookup (ensurePackageKeys m ids) k = some []) ∧
    (∀ (m : PFMap) (ids : List Int) (k : String),
      (¬ ∃ i ∈ ids, toString i = k) →
      jsLookup (ensurePackageKeys m ids) k = none) := by
  refine ⟨?_, ?_, ?_, ?_, ?_, ?_, ?_, ?_⟩
  · intro m ids k
    rw [← jsLookup_isSome_iff]
    unfold ensureRoleKeys
    rw [ensure_generic ids m ([] : FeatureMap) k, ← any_toString_iff ids k]
    by_cases ha : (ids.any fun i => toString i == k) = true
    · rw [if_pos ha]
      cases jsLookup m k <;> simp [ha]
    · have ha2 := by
        cases he : ids.any fun i => toString i == k
        · exact he
        · exact absurd he ha
      rw [ha2]
      simp
  · intro m ids k v he hv
    unfold ensureRoleKeys
    rw [ensure_generic ids m ([] : FeatureMap) k,
      if_pos ((any_toString_iff ids k).mpr he)]
    simp only [hv]
  · intro m ids k he hv
    unfold ensureRoleKeys
    rw [ensure_generic ids m ([] : FeatureMap) k,
      if_pos ((any_toString_iff ids k).mpr he)]
    simp only [hv]
  · intro m ids k he
    unfold ensureRoleKeys
    rw [ensure_generic ids m ([] : FeatureMap) k, any_toString_false ids k he]
    simp
  · intro m ids k
    rw [← jsLookup_isSome_iff]
    unfold ensurePackageKeys
    rw [ensure_generic ids m ([] : List String) k, ← any_toString_iff ids k]
    by_cases ha : (ids.any fun i => toString i == k) = true
    · rw [if_pos ha]
      cases jsLookup m k <;> simp [ha]
    · have ha2 := by
        cases he : ids.any fun i => toString i == k
        · exact he
        · exact absurd he ha
      rw [ha2]
      simp
  · intro m ids k v he hv
    unfold ensurePackageKeys
    rw [ensure_generic ids m ([] : List String) k,
      if_pos ((any_toString_iff ids k).mpr he)]
    simp only [hv]
  · intro m ids k he hv
    unfold ensurePackageKeys
    rw [ensure_generic ids m ([] : List String) k,
      if_pos ((any_toString_iff ids k).mpr he)]
    simp only [hv]
  · intro m ids k he
    unfold ensurePackageKeys
    rw [ensure_generic ids m ([] : List String) k, any_toString_false ids k he]
    simp

/-- Witness for C5: reconciling the mapping with role ids 1 and 3 keeps
the data of role 1, adds an empty entry for role 3, and drops the
orphaned key 2. -/
theorem C5_reconciliation_witness :
    ((∃ i ∈ ([1, 3] : List Int), toString i = "1") ∧
      jsLookup (ensureRoleKeys [("1", [("9", [])]), ("2", [("8", [])])] [1, 3])
        "1" = some [("9", [])]) ∧
    jsLookup (ensureRoleKeys [("1", [("9", [])]), ("2", [("8", [])])] [1, 3])
      "3" = some [] ∧
    jsLookup (ensureRoleKeys [("1", [("9", [])]), ("2", [("8", [])])] [1, 3])
      "2" = none :=
  ⟨⟨⟨1, by decide, rfl⟩,
    C5_reconciliation.2.1 [("1", [("9", [])]), ("2", [("8", [])])] [1, 3]
      "1" [("9", [])] ⟨1, by decide, rfl⟩ (by decide)⟩,
   C5_reconciliation.2.2.1 [("1", [("9", [])]), ("2", [("8", [])])] [1, 3]
     "3" ⟨3, by decide, rfl⟩ (by decide),
   C5_reconciliation.2.2.2.1 [("1", [("9", [])]), ("2", [("8", [])])] [1, 3]
     "2" (by decide)⟩

/-- C10: a CRUD editor save of an edit (editingId not -1) keeps every
stored id unchanged, produces a result independent of the id carried by
the draft, and stores the draft payload under the original id at every
matching position while leaving other items untouched. -/
theorem C10_crud_save_id_stable {α : Type} (items : List (CrudItem α))
    (editingId : Int) (draft : CrudItem α) (h : editingId ≠ -1) :
    ((crudSave items editingId draft).map CrudItem.id =
      items.map CrudItem.id) ∧
    (∀ d : Int, crudSave items editingId { draft with id := d } =
      crudSave items editingId draft) ∧
    (crudSave items editingId draft = items.map (fun i =>
      if i.id = editingId then { id := i.id, payload := draft.payload }
      else i)) := by
  refine ⟨?_, ?_, ?_⟩
  · unfold crudSave
    rw [if_neg h, List.map_map]
    apply List.map_congr_left
    intro i _
    by_cases hi : i.id = editingId
    · simp [hi]
    · simp [hi]
  · intro d
    unfold crudSave
    rw [if_neg h, if_neg h]
  · unfold crudSave
    rw [if_neg h]

/-- Witness for C10: editing item 2 with a draft whose id field is 9
keeps the stored ids 1 and 2 and stores the draft payload under id 2. -/
theorem C10_crud_save_id_stable_witness :
    (crudSave [⟨1, "a"⟩, ⟨2, "b"⟩] 2 (⟨9, "z"⟩ : CrudItem String)).map
      CrudItem.id = [1, 2] ∧
    crudSave [⟨1, "a"⟩, ⟨2, "b"⟩] 2 (⟨9, "z"⟩ : CrudItem String) =
      [⟨1, "a"⟩, ⟨2, "z"⟩] := by
  have h := C10_crud_save_id_stable [⟨1, "a"⟩, ⟨2, "b"⟩] 2
    (⟨9, "z"⟩ : CrudItem String) (by decide)
  exact ⟨h.1, h.2.2⟩

section StructLemmas

variable {α : Type}

theorem contains_true_iff (l : List String) (x : String) :
    l.contains x = true ↔ x ∈ l := by
  constructor
  · intro h
    by_contra hm
    rw [(contains_false_iff l x).mpr hm] at h
    cases h
  · intro h
    cases he : l.contains x
    · exact absurd h ((contains_false_iff l x).mp he)
    · rfl

theorem mem_of_jsLookup {l : JsObj α} {k : String} {v : α}
    (h : jsLookup l k = some v) : (k, v) ∈ l := by
  induction l with
  | nil => cases h
  | cons p l ih =>
      rw [jsLookup_cons] at h
      by_cases hk : p.1 = k
      · rw [if_pos hk] at h
        injection h with h2
        have he : (k, v) = p := by rw [← hk, ← h2]
        rw [he]
        exact List.mem_cons_self p l
      · rw [if_neg hk] at h
        exact List.mem_cons_of_mem p (ih h)

theorem mem_jsSet {l : JsObj α} {k : String} {v : α} {q : String × α}
    (h : q ∈ jsSet l k v) : q = (k, v) ∨ q ∈ l := by
  unfold jsSet at h
  by_cases hh : jsHasKey l k = true
  · rw [if_pos hh, List.mem_map] at h
    obtain ⟨p, hp, he⟩ := h
    by_cases hpk : p.1 = k
    · rw [if_pos (by simpa using hpk)] at he
      exact Or.inl he.symm
    · rw [if_neg (by simpa using hpk)] at he
      exact Or.inr (he ▸ hp)
  · rw [if_neg hh, List.mem_append] at h
    rcases h with h1 | h1
    · exact Or.inr h1
    · exact Or.inl (by simpa using h1)

theorem jsHasKey_false_of_not (l : JsObj α) (k : String)
    (h : ¬ jsHasKey l k = true) : jsHasKey l k = false := by
  cases he : jsHasKey l k
  · rfl
  · exact absurd he h

theorem jsKeys_jsSet_nodup {l : JsObj α} {k : String} (v : α)
    (h : (jsKeys l).Nodup) : (jsKeys (jsSet l k v)).Nodup := by
  by_cases hh : jsHasKey l k = true
  · rw [jsKeys_jsSet_of_has hh]
    exact h
  · rw [jsKeys_jsSet_of_not_has (jsHasKey_false_of_not l k hh) v]
    rw [List.nodup_append]
    refine ⟨h, List.nodup_singleton k, ?_⟩
    intro a ha hb
    have hak : a = k := by simpa using hb
    exact absurd ((jsHasKey_iff l k).mpr (hak ▸ ha)) hh

theorem jsSet_cons_ne {p : String × α} {k : String} (l : JsObj α)
    (h : ¬ (p.1 = k)) (v : α) :
    jsSet (p :: l) k v = p :: jsSet l k v := by
  have hb : (p.1 == k) = false := by simpa using h
  unfold jsSet
  rw [jsHasKey_cons, hb, Bool.false_or]
  by_cases hh : jsHasKey l k = true
  · rw [if_pos hh, if_pos hh, List.map_cons, if_neg (by simpa using h)]
  · rw [if_neg hh, if_neg hh, List.cons_append]

theorem jsSet_eq_self {l : JsObj α} {k : String} {v : α}
    (hnd : (jsKeys l).Nodup) (h : jsLookup l k = some v) : jsSet l k v = l := by
  induction l with
  | nil => cases h
  | cons p l ih =>
      rw [jsLookup_cons] at h
      unfold jsKeys at hnd
      rw [List.map_cons, List.nodup_cons] at hnd
      by_cases hk : p.1 = k
      · rw [if_pos hk] at h
        injection h with h2
        have hhas : jsHasKey (p :: l) k = true := by
          rw [jsHasKey_cons]
          simp [hk]
        have hknot : jsHasKey l k = false := by
          apply jsHasKey_false_of_not
          intro hc
          exact hnd.1 (hk ▸ (jsHasKey_iff l k).mp hc)
        rw [jsSet, if_pos hhas, List.map_cons, if_pos (by simpa using hk),
          map_replace_of_not_has hknot]
        have : (k, v) = p := by
          rw [← hk, ← h2]
        rw [this]
      · rw [if_neg hk] at h
        rw [jsSet_cons_ne l hk v, ih hnd.2 h]

theorem jsSet_jsSet (l : JsObj α) (k : String) (v w : α) :
    jsSet (jsSet l k v) k w = jsSet l k w := by
  induction l with
  | nil =>
      unfold jsSet jsHasKey
      simp
  | cons p l ih =>
      by_cases hk : p.1 = k
      · have hhas : jsHasKey (p :: l) k = true := by
          rw [jsHasKey_cons]
          simp [hk]
        have hstep : ∀ (u : α), jsSet (p :: l) k u =
            (k, u) :: l.map (fun q => if q.1 == k then (k, u) else q) := by
          intro u
          rw [jsSet, if_pos hhas, List.map_cons, if_pos (by simpa using hk)]
        rw [hstep v]
        have hhas2 : jsHasKey ((k, v) ::
            l.map (fun q => if q.1 == k then (k, v) else q)) k = true := by
          rw [jsHasKey_cons]
          simp
        rw [jsSet, if_pos hhas2, List.map_cons, if_pos (by simp), hstep w]
        congr 1
        rw [List.map_map]
        apply List.map_congr_left
        intro q _
        by_cases hq : q.1 = k
        · simp [hq]
        · have hb : (q.1 == k) = false := by simpa using hq
          simp [hq, hb]
      · rw [jsSet_cons_ne l hk v, jsSet_cons_ne _ hk w, jsSet_cons_ne l hk w, ih]

theorem cloneMenusFold_eq (byM : MenuMap) (h : WFMenuMap byM) :
    byM.foldl (fun o3 q => jsSet o3 q.1 (jsNewSet q.2)) [] = byM := by
  have h1 := foldl_jsSet_fresh (fun (_ : String) (s : ActionSet) => jsNewSet s)
    byM [] h.1 (fun k _ => rfl)
  refine Eq.trans h1 ?_
  rw [List.nil_append]
  conv_rhs => rw [show byM = byM.map id from (List.map_id byM).symm]
  apply List.map_congr_left
  intro q hq
  rcases q with ⟨k0, s⟩
  show (k0, jsNewSet s) = (k0, s)
  rw [jsNewSet_eq_self (h.2 _ hq)]

theorem cloneFeaturesFold_eq (byF : FeatureMap) (h : WFFeatureMap byF) :
    byF.foldl (fun o2 f => jsSet o2 f.1 (f.2.foldl (fun o3 q =>
      jsSet o3 q.1 (jsNewSet q.2)) [])) [] = byF := by
  have h1 := foldl_jsSet_fresh (fun (_ : String) (byM : MenuMap) =>
    byM.foldl (fun o3 q => jsSet o3 q.1 (jsNewSet q.2)) [])
    byF [] h.1 (fun k _ => rfl)
  refine Eq.trans h1 ?_
  rw [List.nil_append]
  conv_rhs => rw [show byF = byF.map id from (List.map_id byF).symm]
  apply List.map_congr_left
  intro f hf
  rcases f with ⟨k0, byM⟩
  show (k0, byM.foldl (fun o3 q => jsSet o3 q.1 (jsNewSet q.2)) []) = (k0, byM)
  rw [cloneMenusFold_eq byM (h.2 _ hf)]

theorem cloneMapping_eq_self (m : RFMA) (h : WFRFMA m) :
    cloneMapping m = m := by
  unfold cloneMapping
  have h1 := foldl_jsSet_fresh (fun (_ : String) (byF : FeatureMap) =>
    byF.foldl (fun o2 f => jsSet o2 f.1 (f.2.foldl (fun o3 q =>
      jsSet o3 q.1 (jsNewSet q.2)) [])) [])
    m [] h.1 (fun k _ => rfl)
  refine Eq.trans h1 ?_
  rw [List.nil_append]
  conv_rhs => rw [show m = m.map id from (List.map_id m).symm]
  apply List.map_congr_left
  intro r hr
  rcases r with ⟨k0, byF⟩
  show (k0, byF.foldl (fun o2 f => jsSet o2 f.1 (f.2.foldl (fun o3 q =>
    jsSet o3 q.1 (jsNewSet q.2)) [])) []) = (k0, byF)
  rw [cloneFeaturesFold_eq byF (h.2 _ hr)]

end StructLemmas

section ToggleLemmas

theorem toggle_eval (m : RFMA) (roleId featureId : Int) (menuId : String)
    (permId : Int) (hWF : WFRFMA m) {byF : FeatureMap} {byM : MenuMap}
    {s : ActionSet}
    (hr : jsLookup m (toString roleId) = some byF)
    (hf : jsLookup byF (toString featureId) = some byM)
    (hs : jsLookup byM menuId = some s) :
    toggle m roleId featureId menuId permId =
      jsSet m (toString roleId) (jsSet byF (toString featureId)
        (jsSet byM menuId
          (if s.contains (toString permId) then s.erase (toString permId)
           else s ++ [toString permId]))) := by
  have hWFf : WFFeatureMap byF := hWF.2 _ (mem_of_jsLookup hr)
  have hWFm : WFMenuMap byM := hWFf.2 _ (mem_of_jsLookup hf)
  have hsnd : WFSet s := hWFm.2 _ (mem_of_jsLookup hs)
  have hhr : jsHasKey m (toString roleId) = true := by
    rw [jsHasKey_eq_isSome, hr]
    rfl
  have hhf : jsHasKey byF (toString featureId) = true := by
    rw [jsHasKey_eq_isSome, hf]
    rfl
  simp only [toggle]
  rw [cloneMapping_eq_self m hWF, jsSetDefault_of_has hhr, hr]
  simp only [Option.getD_some]
  rw [jsSetDefault_of_has hhf, hf]
  simp only [Option.getD_some, hs]
  rw [jsNewSet_eq_self hsnd]
  by_cases hc : s.contains (toString permId) = true
  · rw [if_pos hc, if_pos hc]
    rfl
  · rw [if_neg hc, if_neg hc]
    simp only [jsSetAdd]
    rw [if_neg hc]

theorem WF_jsSet_rfma {m : RFMA} {k : String} {byF : FeatureMap}
    (hm : WFRFMA m) (hf : WFFeatureMap byF) : WFRFMA (jsSet m k byF) := by
  refine ⟨jsKeys_jsSet_nodup byF hm.1, ?_⟩
  intro q hq
  rcases mem_jsSet hq with h1 | h2
  · rw [h1]
    exact hf
  · exact hm.2 q h2

theorem WF_jsSet_feature {byF : FeatureMap} {k : String} {byM : MenuMap}
    (hf : WFFeatureMap byF) (hm : WFMenuMap byM) :
    WFFeatureMap (jsSet byF k byM) := by
  refine ⟨jsKeys_jsSet_nodup byM hf.1, ?_⟩
  intro q hq
  rcases mem_jsSet hq with h1 | h2
  · rw [h1]
    exact hm
  · exact hf.2 q h2

theorem WF_jsSet_menu {byM : MenuMap} {k : String} {s : ActionSet}
    (hm : WFMenuMap byM) (hs : WFSet s) : WFMenuMap (jsSet byM k s) := by
  refine ⟨jsKeys_jsSet_nodup s hm.1, ?_⟩
  intro q hq
  rcases mem_jsSet hq with h1 | h2
  · rw [h1]
    exact hs
  · exact hm.2 q h2

end ToggleLemmas

/-- C3 counterexample (claim as stated is false): the empty map is
well-formed, yet toggling an absent path twice does not return the empty
map — the first toggle creates the intermediate role and feature entries
and the second leaves an empty action set behind. -/
theorem C3_toggle_counterexample :
    WFRFMA ([] : RFMA) ∧
    toggle (toggle [] 1 2 "3" 5) 1 2 "3" 5 ≠ [] :=
  ⟨by decide, by decide⟩

/-- C3 amended: over a well-formed map, double toggle is the identity
when the toggled path already exists in the map and, in the other
direction of the flip, the terminal set is restored up to permutation
(the action id moves to the end of the insertion order) with every other
entry of the map unchanged. -/
theorem C3_toggle_amended (m : RFMA) (roleId featureId : Int)
    (menuId : String) (permId : Int) (hWF : WFRFMA m) {byF : FeatureMap}
    {byM : MenuMap} {s : ActionSet}
    (hr : jsLookup m (toString roleId) = some byF)
    (hf : jsLookup byF (toString featureId) = some byM)
    (hs : jsLookup byM menuId = some s) :
    (s.contains (toString permId) = false →
      toggle (toggle m roleId featureId menuId permId)
        roleId featureId menuId permId = m) ∧
    (∃ s1 : ActionSet, s1.Perm s ∧
      toggle (toggle m roleId featureId menuId permId)
        roleId featureId menuId permId =
        jsSet m (toString roleId) (jsSet byF (toString featureId)
          (jsSet byM menuId s1))) := by
  have hWFf : WFFeatureMap byF := hWF.2 _ (mem_of_jsLookup hr)
  have hWFm : WFMenuMap byM := hWFf.2 _ (mem_of_jsLookup hf)
  have hsnd : WFSet s := hWFm.2 _ (mem_of_jsLookup hs)
  have h1 := toggle_eval m roleId featureId menuId permId hWF hr hf hs
  by_cases hc : s.contains (toString permId) = true
  · -- id present: first toggle erases it, second appends it at the end
    rw [if_pos hc] at h1
    have hFlipWF : WFSet (s.erase (toString permId)) :=
      List.Nodup.erase _ hsnd
    have hWFT : WFRFMA (toggle m roleId featureId menuId permId) := by
      rw [h1]
      exact WF_jsSet_rfma hWF (WF_jsSet_feature hWFf
        (WF_jsSet_menu hWFm hFlipWF))
    have hTr : jsLookup (toggle m roleId featureId menuId permId)
        (toString roleId) = some (jsSet byF (toString featureId)
          (jsSet byM menuId (s.erase (toString permId)))) := by
      rw [h1]
      exact jsLookup_jsSet _ _ _
    have h2 := toggle_eval _ roleId featureId menuId permId hWFT hTr
      (jsLookup_jsSet byF _ _) (jsLookup_jsSet byM _ _)
    rw [h1, jsSet_jsSet m, jsSet_jsSet byF, jsSet_jsSet byM, ← h1] at h2
    have hnc : (s.erase (toString permId)).contains (toString permId)
        = false := by
      apply (contains_false_iff _ _).mpr
      intro hmem
      exact absurd ((hsnd.mem_erase_iff).mp hmem).1 (by simp)
    rw [hnc, if_neg (fun hcc => Bool.noConfusion hcc)] at h2
    refine ⟨fun hcf => absurd (hc.symm.trans hcf) (by simp),
      ⟨s.erase (toString permId) ++ [toString permId], ?_, h2⟩⟩
    have hp1 : (s.erase (toString permId) ++ [toString permId]).Perm
        ((toString permId) :: s.erase (toString permId)) :=
      List.perm_append_singleton _ _
    have hp2 : s.Perm ((toString permId) :: s.erase (toString permId)) :=
      List.perm_cons_erase ((contains_true_iff s _).mp hc)
    exact hp1.trans hp2.symm
  · -- id absent: first toggle appends it, second erases the copy again
    have hcf : s.contains (toString permId) = false := by
      cases he : s.contains (toString permId)
      · rfl
      · exact absurd he hc
    rw [if_neg hc] at h1
    have hFlipWF : WFSet (s ++ [toString permId]) := by
      unfold WFSet
      rw [List.nodup_append]
      refine ⟨hsnd, List.nodup_singleton _, ?_⟩
      intro a ha hb
      have hak : a = toString permId := by simpa using hb
      exact absurd ((contains_true_iff s _).mpr (hak ▸ ha)) hc
    have hWFT : WFRFMA (toggle m roleId featureId menuId permId) := by
      rw [h1]
      exact WF_jsSet_rfma hWF (WF_jsSet_feature hWFf
        (WF_jsSet_menu hWFm hFlipWF))
    have hTr : jsLookup (toggle m roleId featureId menuId permId)
        (toString roleId) = some (jsSet byF (toString featureId)
          (jsSet byM menuId (s ++ [toString permId]))) := by
      rw [h1]
      exact jsLookup_jsSet _ _ _
    have h2 := toggle_eval _ roleId featureId menuId permId hWFT hTr
      (jsLookup_jsSet byF _ _) (jsLookup_jsSet byM _ _)
    rw [h1, jsSet_jsSet m, jsSet_jsSet byF, jsSet_jsSet byM, ← h1] at h2
    have hyc : (s ++ [toString permId]).contains (toString permId)
        = true := by
      apply (contains_true_iff _ _).mpr
      exact List.mem_append.mpr (Or.inr (by simp))
    rw [hyc, if_pos rfl] at h2
    have hback : (s ++ [toString permId]).erase (toString permId) = s := by
      rw [List.erase_append_right [toString permId]
        ((contains_false_iff s _).mp hcf)]
      simp
    rw [hback] at h2
    have hcollapse : jsSet m (toString roleId) (jsSet byF (toString featureId)
        (jsSet byM menuId s)) = m := by
      rw [jsSet_eq_self hWFm.1 hs, jsSet_eq_self hWFf.1 hf,
        jsSet_eq_self hWF.1 hr]
    exact ⟨fun hcc => h2.trans hcollapse, ⟨s, List.Perm.refl s, h2⟩⟩

/-- Witness for the amended C3 on both flip directions: toggling action 9
(absent) twice restores the concrete map exactly, and toggling action 5
(present) twice restores the terminal set up to permutation. -/
theorem C3_toggle_amended_witness :
    (toggle (toggle [("1", [("2", [("3", ["5", "7"])])])] 1 2 "3" 9)
      1 2 "3" 9 = [("1", [("2", [("3", ["5", "7"])])])]) ∧
    (∃ s1 : ActionSet, s1.Perm ["5", "7"] ∧
      toggle (toggle [("1", [("2", [("3", ["5", "7"])])])] 1 2 "3" 5)
        1 2 "3" 5 =
        jsSet [("1", [("2", [("3", ["5", "7"])])])] "1"
          (jsSet [("2", [("3", ["5", "7"])])] "2"
            (jsSet [("3", ["5", "7"])] "3" s1))) :=
  ⟨(@C3_toggle_amended [("1", [("2", [("3", ["5", "7"])])])] 1 2 "3" 9
      (by decide) [("2", [("3", ["5", "7"])])] [("3", ["5", "7"])]
      ["5", "7"] (by decide) (by decide) (by decide)).1 (by decide),
   (@C3_toggle_amended [("1", [("2", [("3", ["5", "7"])])])] 1 2 "3" 5
      (by decide) [("2", [("3", ["5", "7"])])] [("3", ["5", "7"])]
      ["5", "7"] (by decide) (by decide) (by decide)).2⟩

section MergeLemmas

variable {α : Type}

theorem jsLookup_jsDelete (l : JsObj α) (k k' : String) :
    jsLookup (jsDelete l k) k' = if k = k' then none else jsLookup l k' := by
  unfold jsDelete
  have h := jsLookup_filter_key l (fun s => s != k) k'
  rw [h]
  by_cases hk : k = k'
  · subst hk
    rw [if_pos rfl, if_neg (by simp)]
  · rw [if_neg hk, if_pos (by simpa using Ne.symm hk)]

theorem jsLookup_jsSetDefault_getD (ne : JsObj α) (k : String) (d : α) :
    (jsLookup (jsSetDefault ne k d) k).getD d = (jsLookup ne k).getD d := by
  rw [jsLookup_jsSetDefault]
  cases hv : jsLookup ne k
  · simp
  · rfl

theorem mem_jsSetAdd (e : List String) (v x : String) :
    x ∈ jsSetAdd e v ↔ x ∈ e ∨ x = v := by
  unfold jsSetAdd
  by_cases hc : e.contains v = true
  · rw [if_pos hc]
    constructor
    · exact Or.inl
    · rintro (h | rfl)
      · exact h
      · exact (contains_true_iff e x).mp hc
  · rw [if_neg hc]
    simp [List.mem_append]

theorem mem_foldl_jsSetAdd : ∀ (src e : List String) (x : String),
    x ∈ src.foldl (fun acc v => jsSetAdd acc v) e ↔ x ∈ e ∨ x ∈ src
  | [], e, x => by simp
  | v :: src, e, x => by
      rw [List.foldl_cons, mem_foldl_jsSetAdd src (jsSetAdd e v) x,
        mem_jsSetAdd]
      simp only [List.mem_cons]
      constructor
      · rintro ((h | rfl) | h)
        · exact Or.inl h
        · exact Or.inr (Or.inl rfl)
        · exact Or.inr (Or.inr h)
      · rintro (h | (rfl | h))
        · exact Or.inl (Or.inl h)
        · exact Or.inl (Or.inr rfl)
        · exact Or.inr h

theorem foldl_merge_lookup {β γ : Type} (μ : γ → β → γ) (dflt : γ) :
    ∀ (src : List (String × β)) (c : JsObj γ) (k : String),
      (src.map Prod.fst).Nodup →
      jsLookup (src.foldl (fun c2 q =>
          jsSet c2 q.1 (μ ((jsLookup c2 q.1).getD dflt) q.2)) c) k =
        match jsLookup src k with
        | some b => some (μ ((jsLookup c k).getD dflt) b)
        | none => jsLookup c k
  | [], c, k, _ => by simp [jsLookup_nil]
  | q :: src, c, k, hnd => by
      rw [List.foldl_cons]
      rw [List.map_cons, List.nodup_cons] at hnd
      rw [foldl_merge_lookup μ dflt src _ k hnd.2, jsLookup_cons]
      by_cases hk : q.1 = k
      · subst hk
        have hrest : jsLookup src q.1 = none :=
          (jsLookup_eq_none_iff src q.1).mpr
            (fun h => hnd.1 (by simpa [jsKeys] using h))
        rw [hrest, if_pos rfl, jsLookup_jsSet]
      · rw [if_neg hk, jsLookup_jsSet_ne c hk]

end MergeLemmas

/-- C4: when the id of the role being edited changes from `editingId` to
`draftId` (both differ, neither is the add sentinel -1) and the mapping
holds data under the old key, the rekey deletes the old key, leaves all
other keys untouched, renames the entry when the new key is absent, and
when the new key is present merges the old entry into it so that the
action set at every (feature, menu) path is the union of the two
entries' sets. -/
theorem C4_rekey (m : RFMA) (editingId draftId : Int) (hWF : WFRFMA m)
    (h1 : editingId ≠ -1) (h2 : draftId ≠ editingId)
    (hkne : toString editingId ≠ toString draftId)
    {oldEntry : FeatureMap}
    (hold : jsLookup m (toString editingId) = some oldEntry) :
    (jsLookup (handleRoleBeforeSave m editingId draftId)
        (toString editingId) = none) ∧
    (∀ r : String, r ≠ toString editingId → r ≠ toString draftId →
      jsLookup (handleRoleBeforeSave m editingId draftId) r =
        jsLookup m r) ∧
    (jsLookup m (toString draftId) = none →
      jsLookup (handleRoleBeforeSave m editingId draftId)
        (toString draftId) = some oldEntry) ∧
    (∀ newEntry : FeatureMap,
      jsLookup m (toString draftId) = some newEntry →
      ∃ merged : FeatureMap,
        jsLookup (handleRoleBeforeSave m editingId draftId)
          (toString draftId) = some merged ∧
        ∀ fid mid x,
          x ∈ lookupActions merged fid mid ↔
            (x ∈ lookupActions newEntry fid mid ∨
             x ∈ lookupActions oldEntry fid mid)) := by
  have hWFold : WFFeatureMap oldEntry := hWF.2 _ (mem_of_jsLookup hold)
  refine ⟨?_, ?_, ?_, ?_⟩
  · cases hnew : jsLookup m (toString draftId) with
    | none =>
        simp only [handleRoleBeforeSave, if_neg h1, if_neg h2, if_neg hkne,
          cloneMapping_eq_self m hWF, hold, hnew]
        rw [jsLookup_jsDelete, if_pos rfl]
    | some newEntry =>
        simp only [handleRoleBeforeSave, if_neg h1, if_neg h2, if_neg hkne,
          cloneMapping_eq_self m hWF, hold, hnew]
        rw [jsLookup_jsDelete, if_pos rfl]
  · intro r hro hrn
    cases hnew : jsLookup m (toString draftId) with
    | none =>
        simp only [handleRoleBeforeSave, if_neg h1, if_neg h2, if_neg hkne,
          cloneMapping_eq_self m hWF, hold, hnew]
        rw [jsLookup_jsDelete, if_neg (Ne.symm hro),
          jsLookup_jsSet_ne m (Ne.symm hrn)]
    | some newEntry =>
        simp only [handleRoleBeforeSave, if_neg h1, if_neg h2, if_neg hkne,
          cloneMapping_eq_self m hWF, hold, hnew]
        rw [jsLookup_jsDelete, if_neg (Ne.symm hro),
          jsLookup_jsSet_ne m (Ne.symm hrn)]
  · intro hnew
    simp only [handleRoleBeforeSave, if_neg h1, if_neg h2, if_neg hkne,
      cloneMapping_eq_self m hWF, hold, hnew]
    rw [jsLookup_jsDelete, if_neg hkne, jsLookup_jsSet]
  · intro newEntry hnew
    simp only [handleRoleBeforeSave, if_neg h1, if_neg h2, if_neg hkne,
      cloneMapping_eq_self m hWF, hold, hnew]
    refine ⟨_, by rw [jsLookup_jsDelete, if_neg hkne, jsLookup_jsSet], ?_⟩
    intro fid mid x
    have hext := List.foldl_ext
      (fun ne (f : String × MenuMap) =>
        jsSet (jsSetDefault ne f.1 []) f.1 (f.2.foldl (fun c q =>
          jsSet c q.1 (q.2.foldl (fun e v => jsSetAdd e v)
            ((jsLookup c q.1).getD []))) ((jsLookup (jsSetDefault ne f.1 [])
              f.1).getD [])))
      (fun ne (f : String × MenuMap) =>
        jsSet ne f.1 ((fun (stored : MenuMap) (fv : MenuMap) =>
          fv.foldl (fun c q => jsSet c q.1 (q.2.foldl (fun e v =>
            jsSetAdd e v) ((jsLookup c q.1).getD []))) stored)
          ((jsLookup ne f.1).getD []) f.2))
      newEntry (l := oldEntry)
      (by
        intro ne f _
        dsimp only
        rw [jsSet_jsSetDefault, jsLookup_jsSetDefault_getD])
    unfold lookupActions
    rw [hext, foldl_merge_lookup
      (fun (stored : MenuMap) (fv : MenuMap) =>
        fv.foldl (fun c q => jsSet c q.1 (q.2.foldl (fun e v =>
          jsSetAdd e v) ((jsLookup c q.1).getD []))) stored)
      ([] : MenuMap) oldEntry newEntry fid hWFold.1]
    cases hfold : jsLookup oldEntry fid with
    | none =>
        simp only [Option.getD_none, jsLookup_nil]
        constructor
        · exact Or.inl
        · rintro (h | h)
          · exact h
          · cases h
    | some oldF =>
        have hWFoldF : WFMenuMap oldF := hWFold.2 _ (mem_of_jsLookup hfold)
        simp only [Option.getD_some]
        rw [foldl_merge_lookup
          (fun (stored : ActionSet) (s0 : ActionSet) =>
            s0.foldl (fun e v => jsSetAdd e v) stored)
          ([] : ActionSet) oldF
          ((jsLookup newEntry fid).getD []) mid hWFoldF.1]
        cases hmold : jsLookup oldF mid with
        | none =>
            simp only [Option.getD_none, jsLookup_nil]
            constructor
            · exact Or.inl
            · rintro (h | h)
              · exact h
              · cases h
        | some s0 =>
            simp only [Option.getD_some]
            rw [mem_foldl_jsSetAdd]

/-- Witness for C4 on a concrete map: renaming role 3 to the absent key 7
moves the entry, and renaming role 3 onto the existing key 1 merges the
action sets pointwise. -/
theorem C4_rekey_witness :
    (jsLookup (handleRoleBeforeSave
        [("1", [("2", [("3", ["5"])])]), ("3", [("2", [("3", ["6"])])])]
        3 7) "3" = none) ∧
    (jsLookup (handleRoleBeforeSave
        [("1", [("2", [("3", ["5"])])]), ("3", [("2", [("3", ["6"])])])]
        3 7) "7" = some [("2", [("3", ["6"])])]) ∧
    (∃ merged : FeatureMap,
      jsLookup (handleRoleBeforeSave
          [("1", [("2", [("3", ["5"])])]), ("3", [("2", [("3", ["6"])])])]
          3 1) "1" = some merged ∧
      ∀ fid mid x,
        x ∈ lookupActions merged fid mid ↔
          (x ∈ lookupActions [("2", [("3", ["5"])])] fid mid ∨
           x ∈ lookupActions [("2", [("3", ["6"])])] fid mid)) :=
  ⟨(@C4_rekey [("1", [("2", [("3", ["5"])])]), ("3", [("2", [("3", ["6"])])])]
      3 7 (by decide) (by decide) (by decide) (by decide)
      [("2", [("3", ["6"])])] (by decide)).1,
   (@C4_rekey [("1", [("2", [("3", ["5"])])]), ("3", [("2", [("3", ["6"])])])]
      3 7 (by decide) (by decide) (by decide) (by decide)
      [("2", [("3", ["6"])])] (by decide)).2.2.1 (by decide),
   (@C4_rekey [("1", [("2", [("3", ["5"])])]), ("3", [("2", [("3", ["6"])])])]
      3 1 (by decide) (by decide) (by decide) (by decide)
      [("2", [("3", ["6"])])] (by decide)).2.2.2
     [("2", [("3", ["5"])])] (by decide)⟩

set_option maxRecDepth 8192 in
set_option maxHeartbeats 1000000 in
/-- C6: the role-scenario CSV export emits the header plus exactly one
row per (role, feature, menu, action) quadruple whose menu-level set is
non-empty (conjunct on the row count), skips menu entries with empty
sets, emits rows with empty-string name fields when an entity lookup
fails, doubles embedded double quotes inside quoted fields, and gives
every data row the uniform export timestamp and "system" audit fields;
Scenario A produces exactly its one expected row. -/
theorem C6_export :
    (exportCSV [("1", [("2", [("3", ["5"])])])] [⟨1, "Admin"⟩]
        [⟨2, "Dashboard"⟩] [⟨3, "Home"⟩] [⟨5, "View", "VIEW"⟩]
        "1728000000000" =
      [roleCSVHeader,
       "\"1\",\"Admin\",\"2\",\"Dashboard\",\"3\",\"Home\",\"5\",\"View\",\"VIEW\",\"1728000000000\",\"1728000000000\",\"system\",\"system\""]) ∧
    (exportCSV [("1", [("2", [("3", [])])])] [⟨1, "Admin"⟩]
        [⟨2, "Dashboard"⟩] [⟨3, "Home"⟩] [⟨5, "View", "VIEW"⟩]
        "1728000000000" = [roleCSVHeader]) ∧
    (exportCSV [("9", [("8", [("7", ["6"])])])] [] [] [] [] "0" =
      [roleCSVHeader,
       "\"9\",\"\",\"8\",\"\",\"7\",\"\",\"6\",\"\",\"\",\"0\",\"0\",\"system\",\"system\""]) ∧
    (escCSV "Ad\"min" = "\"Ad\"\"min\"") ∧
    (∀ (m : RFMA) (roles : List RoleEntity) (features : List FeatureRec)
        (menus : List MenuRec) (perms : List PermActionRec) (now : String),
      (exportCSV m roles features menus perms now).length =
        1 + totalActions m) ∧
    (∀ (m : RFMA) (roles : List RoleEntity) (features : List FeatureRec)
        (menus : List MenuRec) (perms : List PermActionRec) (now : String)
        (row : String),
      row ∈ (exportCSV m roles features menus perms now).tail →
      ∃ c : List String, c.length = 9 ∧
        row = String.intercalate ","
          (c ++ [escCSV now, escCSV now, escCSV "system",
                 escCSV "system"])) := by
  refine ⟨by rfl, by rfl, by rfl, by rfl, ?_, ?_⟩
  · intro m roles features menus perms now
    unfold exportCSV totalActions
    rw [List.length_cons, Nat.add_comm]
    congr 1
    rw [List.flatMap_def, List.length_flatten, List.map_map]
    apply congrArg List.sum
    apply List.map_congr_left
    intro r _
    simp only [Function.comp_apply]
    rw [List.flatMap_def, List.length_flatten, List.map_map]
    apply congrArg List.sum
    apply List.map_congr_left
    intro f _
    simp only [Function.comp_apply]
    rw [List.flatMap_def, List.length_flatten, List.map_map]
    apply congrArg List.sum
    apply List.map_congr_left
    intro q _
    simp only [Function.comp_apply]
    by_cases hemp : q.2.isEmpty = true
    · rw [if_pos hemp, List.isEmpty_iff.mp hemp]
    · rw [if_neg hemp, List.length_map]
  · intro m roles features menus perms now row hrow
    unfold exportCSV at hrow
    rw [List.tail_cons, List.mem_flatMap] at hrow
    obtain ⟨r, hr, hrow⟩ := hrow
    rw [List.mem_flatMap] at hrow
    obtain ⟨f, hf, hrow⟩ := hrow
    rw [List.mem_flatMap] at hrow
    obtain ⟨q, hq, hrow⟩ := hrow
    by_cases hemp : q.2.isEmpty = true
    · rw [if_pos hemp] at hrow
      cases hrow
    · rw [if_neg hemp, List.mem_map] at hrow
      obtain ⟨pid, hpid, hrow⟩ := hrow
      refine ⟨[escCSV r.1,
        escCSV (((roles.find? (fun x => toString x.id == r.1)).map
          RoleEntity.name).getD ""),
        escCSV f.1,
        escCSV (((features.find? (fun x => toString x.id == f.1)).map
          FeatureRec.name).getD ""),
        escCSV q.1,
        escCSV (((menus.find? (fun x => toString x.id == q.1)).map
          MenuRec.name).getD ""),
        escCSV pid,
        escCSV (((perms.find? (fun x => toString x.id == pid)).map
          PermActionRec.name).getD ""),
        escCSV (((perms.find? (fun x => toString x.id == pid)).map
          PermActionRec.code).getD "")], rfl, ?_⟩
      rw [← hrow]
      rfl

set_option maxRecDepth 8192 in
set_option maxHeartbeats 1000000 in
/-- Witness for the universally quantified parts of C6 at the Scenario A
instance: the export has exactly two lines (header plus one data row) and
its data row carries the uniform timestamp and "system" fields. -/
theorem C6_export_witness :
    (exportCSV [("1", [("2", [("3", ["5"])])])] [⟨1, "Admin"⟩]
        [⟨2, "Dashboard"⟩] [⟨3, "Home"⟩] [⟨5, "View", "VIEW"⟩]
        "1728000000000").length =
      1 + totalActions [("1", [("2", [("3", ["5"])])])] ∧
    ∃ c : List String, c.length = 9 ∧
      "\"1\",\"Admin\",\"2\",\"Dashboard\",\"3\",\"Home\",\"5\",\"View\",\"VIEW\",\"1728000000000\",\"1728000000000\",\"system\",\"system\"" =
        String.intercalate ","
          (c ++ [escCSV "1728000000000", escCSV "1728000000000",
                 escCSV "system", escCSV "system"]) :=
  ⟨C6_export.2.2.2.2.1 [("1", [("2", [("3", ["5"])])])] [⟨1, "Admin"⟩]
      [⟨2, "Dashboard"⟩] [⟨3, "Home"⟩] [⟨5, "View", "VIEW"⟩] "1728000000000",
   C6_export.2.2.2.2.2 [("1", [("2", [("3", ["5"])])])] [⟨1, "Admin"⟩]
      [⟨2, "Dashboard"⟩] [⟨3, "Home"⟩] [⟨5, "View", "VIEW"⟩] "1728000000000"
      "\"1\",\"Admin\",\"2\",\"Dashboard\",\"3\",\"Home\",\"5\",\"View\",\"VIEW\",\"1728000000000\",\"1728000000000\",\"system\",\"system\""
      (by rw [C6_export.1]; exact List.mem_cons_self _ _)⟩

set_option maxRecDepth 16384 in
set_option maxHeartbeats 2000000 in
/-- C7: importing a role CSV whose header is followed by four data lines,
one of which has only five columns, builds the replacement mapping from
the three accepted rows only — but the user-facing count is 3, not the 4
the claim states: the success alert computes the row count a second time
after the header has already been removed, so it under-reports by one.
The second conjunct shows the same count on a file of four fully valid
rows, so the reported number matches neither lines scanned nor rows
accepted. -/
theorem C7_import_count_bug :
    (importCSV
        "role_id,role_name,feature_id,feature_name,menu_id,menu_name,permission_action_id,permission_action_name,permission_action_code,createdAt,updatedAt,createdBy,updatedBy\n1,Admin,2,Dashboard,3,Home,5,View,VIEW,0,0,system,system\n1,Admin,2,Dashboard,3,Home,6,Edit,EDIT,0,0,system,system\n2,User,2,Dashboard,3,Home,5,View,VIEW,0,0,system,system\na,b,c,d,e" =
      some ([("1", [("2", [("3", ["5", "6"])])]),
             ("2", [("2", [("3", ["5"])])])], 3)) ∧
    (importCSV
        "role_id,role_name,feature_id,feature_name,menu_id,menu_name,permission_action_id,permission_action_name,permission_action_code,createdAt,updatedAt,createdBy,updatedBy\n1,Admin,2,Dashboard,3,Home,5,View,VIEW,0,0,system,system\n1,Admin,2,Dashboard,3,Home,6,Edit,EDIT,0,0,system,system\n2,User,2,Dashboard,3,Home,5,View,VIEW,0,0,system,system\n2,User,2,Dashboard,3,Home,6,Edit,EDIT,0,0,system,system" =
      some ([("1", [("2", [("3", ["5", "6"])])]),
             ("2", [("2", [("3", ["5", "6"])])])], 3)) ∧
    (3 : Nat) ≠ 4 :=
  ⟨by rfl, by rfl, by decide⟩

section SortLemmas

variable {α : Type}

theorem mem_sortByIdInsert (idOf : α → Int) (x z : α) :
    ∀ (l : List α), z ∈ sortByIdInsert idOf x l ↔ z = x ∨ z ∈ l
  | [] => by simp [sortByIdInsert]
  | y :: ys => by
      unfold sortByIdInsert
      by_cases hxy : idOf x < idOf y
      · rw [if_pos hxy]
        simp [List.mem_cons]
      · rw [if_neg hxy]
        rw [List.mem_cons, mem_sortByIdInsert idOf x z ys, List.mem_cons]
        tauto

theorem sortByIdInsert_pairwise (idOf : α → Int) (x : α) :
    ∀ (l : List α), List.Pairwise (fun a b => idOf a ≤ idOf b) l →
      List.Pairwise (fun a b => idOf a ≤ idOf b) (sortByIdInsert idOf x l)
  | [], _ => by simp [sortByIdInsert]
  | y :: ys, h => by
      rw [List.pairwise_cons] at h
      unfold sortByIdInsert
      by_cases hxy : idOf x < idOf y
      · rw [if_pos hxy]
        rw [List.pairwise_cons]
        refine ⟨?_, List.pairwise_cons.mpr h⟩
        intro b hb
        rcases List.mem_cons.mp hb with rfl | hb2
        · exact le_of_lt hxy
        · exact le_trans (le_of_lt hxy) (h.1 b hb2)
      · rw [if_neg hxy]
        rw [List.pairwise_cons]
        refine ⟨?_, sortByIdInsert_pairwise idOf x ys h.2⟩
        intro b hb
        rcases (mem_sortByIdInsert idOf x b ys).mp hb with rfl | hb2
        · exact le_of_not_lt hxy
        · exact h.1 b hb2

theorem sortById_pairwise (idOf : α → Int) :
    ∀ (l : List α),
      List.Pairwise (fun a b => idOf a ≤ idOf b) (sortById idOf l)
  | [] => List.Pairwise.nil
  | x :: xs => by
      unfold sortById
      exact sortByIdInsert_pairwise idOf x _ (sortById_pairwise idOf xs)

end SortLemmas

set_option maxRecDepth 16384 in
set_option maxHeartbeats 2000000 in
/-- C9: a package CSV row whose package id 99 is absent from the current
Package list creates exactly one new Package with id 99 and the row's
name (first conjunct); a later row with the same id updates that entry
in place (name becomes the later row's) instead of creating a duplicate,
the replaced Package and Feature collections are the union of
pre-existing and upserted entities, and the mapping is replaced
wholesale by the one built from the rows (second conjunct); the replaced
collections are always sorted by id ascending (third conjunct). -/
theorem C9_package_import :
    (processPackageCSV
        "package_id,package_name,feature_id,feature_name\n99,Pro,1,F1"
        [⟨1, "Basic", "basic", "t0", "t0"⟩] [⟨1, "F1", "f1", "t0", "t0"⟩]
        "T" =
      some ([⟨1, "Basic", "basic", "t0", "t0"⟩,
             ⟨99, "Pro", "basic", "T", "T"⟩],
            [⟨1, "F1", "f1", "t0", "t0"⟩],
            [("99", ["1"])])) ∧
    (processPackageCSV
        "package_id,package_name,feature_id,feature_name\n99,Pro,1,F1\n99,ProMax,2,G2"
        [⟨1, "Basic", "basic", "t0", "t0"⟩] [⟨1, "F1", "f1", "t0", "t0"⟩]
        "T" =
      some ([⟨1, "Basic", "basic", "t0", "t0"⟩,
             ⟨99, "ProMax", "basic", "T", "T"⟩],
            [⟨1, "F1", "f1", "t0", "t0"⟩, ⟨2, "G2", "", "T", "T"⟩],
            [("99", ["1", "2"])])) ∧
    (∀ (text : String) (packages : List PackageEntity)
        (features : List FeatureEntity) (nowIso : String)
        (r : List PackageEntity × List FeatureEntity × PFMap),
      processPackageCSV text packages features nowIso = some r →
      List.Pairwise (fun a b => a.id ≤ b.id) r.1 ∧
      List.Pairwise (fun a b => a.id ≤ b.id) r.2.1) := by
  refine ⟨by rfl, by rfl, ?_⟩
  intro text packages features nowIso r h
  unfold processPackageCSV at h
  dsimp only at h
  split at h
  · cases h
  · obtain rfl := Option.some.inj h
    exact ⟨sortById_pairwise PackageEntity.id _,
      sortById_pairwise FeatureEntity.id _⟩

set_option maxRecDepth 16384 in
set_option maxHeartbeats 2000000 in
/-- Witness for the sortedness conjunct of C9 at the concrete two-row
import. -/
theorem C9_package_import_witness :
    List.Pairwise (fun a b => a.id ≤ b.id)
      [(⟨1, "Basic", "basic", "t0", "t0"⟩ : PackageEntity),
       ⟨99, "ProMax", "basic", "T", "T"⟩] ∧
    List.Pairwise (fun a b => a.id ≤ b.id)
      [(⟨1, "F1", "f1", "t0", "t0"⟩ : FeatureEntity),
       ⟨2, "G2", "", "T", "T"⟩] :=
  C9_package_import.2.2
    "package_id,package_name,feature_id,feature_name\n99,Pro,1,F1\n99,ProMax,2,G2"
    [⟨1, "Basic", "basic", "t0", "t0"⟩] [⟨1, "F1", "f1", "t0", "t0"⟩] "T"
    ([⟨1, "Basic", "basic", "t0", "t0"⟩, ⟨99, "ProMax", "basic", "T", "T"⟩],
     [⟨1, "F1", "f1", "t0", "t0"⟩, ⟨2, "G2", "", "T", "T"⟩],
     [("99", ["1", "2"])])
    (by rfl)

end SSPerm
